import Mathlib

/-!
Verification development for the "pes_stats_paste_addon" browser extension
(`src/js/content.js`).  The development shallowly embeds

* the clipboard-text parser `parsePlayerText`, and
* the DOM synchronization engine (`getText`, `getElementByText`,
  `setInputByElementText`, `setCheckboxByElementText`,
  `setSelectByElementText`, `setComboboxByElementText`,
  `getContentByDivTitle`, `setAllCheckboxesToValue`, `setAllRadiosToValue`,
  and the `fill*` passes)

as pure Lean functions.  JavaScript strings are modelled as Lean `String`,
JavaScript numbers as exact rationals extended with the special values
`NaN`, `Infinity` and `-Infinity` (binary64 rounding is not modelled: it
never affects whether a string parses as a number, only the rounding of the
resulting value, and the program only passes values through unchanged).
JavaScript objects used as string-keyed maps are modelled as association
lists with in-place overwrite, which matches JS insertion-order-preserving
assignment semantics (the exotic `__proto__` key and the integer-key
reordering of `for..in` are not modelled).  The live DOM tree is modelled
as a rose tree whose element nodes carry the static structure (tag, `type`
attribute, `value` attribute, children) and the mutable control state (the
`value` and `checked` element properties, which is what the React-style
setters in the source mutate; setting the property does not change the
attribute, matching the DOM).  Event dispatch and the host framework's
reaction to clicks on `button` elements (dropdown rendering) are outside
the repository's code and are modelled as having no effect on the tree;
clicks on radio inputs perform the default DOM activation (set `checked`).
-/

/-! ## JavaScript string primitives -/

/-- Characters removed by `String.prototype.trim` (ECMAScript WhiteSpace and
LineTerminator code points). -/
def isJsWhitespace (c : Char) : Bool :=
  c == ' ' || c == '\t' || c == '\n' || c == '\r' ||
  c == '\x0b' || c == '\x0c' || c == '\u00a0' || c == '\u1680' ||
  (0x2000 ≤ c.toNat && c.toNat ≤ 0x200a) ||
  c == '\u2028' || c == '\u2029' || c == '\u202f' || c == '\u205f' ||
  c == '\u3000' || c == '\ufeff'

/-- Leading-whitespace trim on a character list. -/
def jsTrimLeftL (cs : List Char) : List Char := cs.dropWhile isJsWhitespace

/-- Both-ends trim on a character list. -/
def jsTrimL (cs : List Char) : List Char :=
  ((cs.dropWhile isJsWhitespace).reverse.dropWhile isJsWhitespace).reverse

/-- Model of `String.prototype.trim`. -/
def jsTrim (s : String) : String := ⟨jsTrimL s.data⟩

/-- Prepends a character to the first segment of a split result. -/
def glueHead (c : Char) : List (List Char) → List (List Char)
  | [] => [[c]]
  | h :: t => (c :: h) :: t

/-- Splitting on the regular expression `/\r?\n/`: a `"\r\n"` pair or a lone
`"\n"` separates lines; a lone `"\r"` does not. -/
def splitLinesL : List Char → List (List Char)
  | [] => [[]]
  | '\r' :: '\n' :: cs => [] :: splitLinesL cs
  | '\n' :: cs => [] :: splitLinesL cs
  | c :: cs => glueHead c (splitLinesL cs)

/-- Model of `text.split(/\r?\n/)`. -/
def jsSplitLines (s : String) : List String := (splitLinesL s.data).map String.mk

/-- Splitting a character list on every occurrence of a separator character,
keeping empty segments, as `String.prototype.split` does with a one-character
separator. -/
def splitOnCharL (sep : Char) : List Char → List (List Char)
  | [] => [[]]
  | c :: cs =>
    if c = sep then [] :: splitOnCharL sep cs
    else glueHead c (splitOnCharL sep cs)

/-- Model of `s.split(sep)` for a one-character separator `sep`. -/
def jsSplitOn (sep : Char) (s : String) : List String :=
  (splitOnCharL sep s.data).map String.mk

/-- ASCII upper-casing, the canonicalization a non-Unicode case-insensitive
JS regular expression applies (a non-ASCII character never canonicalizes to
an ASCII one). -/
def asciiUpper (c : Char) : Char :=
  if 'a' ≤ c && c ≤ 'z' then Char.ofNat (c.toNat - 32) else c

/-- Case-insensitive "starts with" on character lists. -/
def ciHasStartL : List Char → List Char → Bool
  | _, [] => true
  | [], _ :: _ => false
  | c :: cs, p :: ps => (asciiUpper c == asciiUpper p) && ciHasStartL cs ps

/-- Model of `/^PAT/i.test(line)` for a fixed pattern `pat` made of literal
characters. -/
def ciHasStart (line pat : String) : Bool := ciHasStartL line.data pat.data

/-- Model of `line.startsWith("*")`. -/
def startsWithStar (s : String) : Bool :=
  match s.data with
  | '*' :: _ => true
  | _ => false

/-- Model of `s.substring(1)` (used only after `startsWith("*")`, where the
first UTF-16 unit is the one-unit character `*`). -/
def dropOneChar (s : String) : String := ⟨s.data.drop 1⟩

/-- Removes the first occurrence of `*`, modelling `line.replace("*", "")`
(the string form of `replace` substitutes only the first occurrence). -/
def removeFirstStarL : List Char → List Char
  | [] => []
  | c :: cs => if c = '*' then cs else c :: removeFirstStarL cs

/-- Model of `line.replace("*", "")`. -/
def removeFirstStar (s : String) : String := ⟨removeFirstStarL s.data⟩

/-! ## JavaScript numbers -/

/-- JavaScript numbers, with finite values as exact rationals (binary64
rounding is not modelled) and the special values. -/
inductive JSNum where
  | finite (q : ℚ)
  | posInf
  | negInf
  | nan
deriving DecidableEq, Repr

/-- Hexadecimal digit predicate. -/
def isHexDigitB (c : Char) : Bool :=
  c.isDigit || ('a' ≤ c && c ≤ 'f') || ('A' ≤ c && c ≤ 'F')

/-- Octal digit predicate. -/
def isOctDigitB (c : Char) : Bool := '0' ≤ c && c ≤ '7'

/-- Binary digit predicate. -/
def isBinDigitB (c : Char) : Bool := c == '0' || c == '1'

/-- Digit value (works for decimal and hexadecimal digits). -/
def hexDigitVal (c : Char) : Nat :=
  if c.isDigit then c.toNat - '0'.toNat
  else if 'a' ≤ c && c ≤ 'f' then c.toNat - 'a'.toNat + 10
  else if 'A' ≤ c && c ≤ 'F' then c.toNat - 'A'.toNat + 10
  else 0

/-- Value of a digit list in a given base. -/
def digitsVal (base : Nat) (ds : List Char) : Nat :=
  ds.foldl (fun a c => a * base + hexDigitVal c) 0

/-- Value of the ECMAScript NonDecimalIntegerLiteral body: every remaining
character must be a digit of the base. -/
def parseRadixL (base : Nat) (digitOk : Char → Bool) (ds : List Char) : JSNum :=
  if ds ≠ [] && ds.all digitOk then .finite (mkRat (digitsVal base ds) 1)
  else .nan

/-- Exact value of a decimal literal `ip . fp e exp`, that is
`(ip + fp / 10 ^ |fp|) * 10 ^ exp`, computed over an integer mantissa so the
rational is built with core operations only. -/
def decValue (ip fp : List Char) (exp : Int) : ℚ :=
  let m : Nat := digitsVal 10 ip * 10 ^ fp.length + digitsVal 10 fp
  let e2 : Int := exp - fp.length
  if 0 ≤ e2 then mkRat ((m * 10 ^ e2.toNat : Nat) : Int) 1
  else mkRat (m : Int) (10 ^ (-e2).toNat)

/-- ECMAScript StrUnsignedDecimalLiteral: `Infinity`, or decimal digits with
an optional fraction and exponent; the whole remaining input must be
consumed, otherwise the result is `NaN`. -/
def parseUnsignedDecL (cs : List Char) : JSNum :=
  if cs = "Infinity".data then .posInf
  else
    let ip := cs.takeWhile Char.isDigit
    let r1 := cs.dropWhile Char.isDigit
    let fr :=
      match r1 with
      | '.' :: r2 => (r2.takeWhile Char.isDigit, r2.dropWhile Char.isDigit)
      | _ => ([], r1)
    if ip = [] && fr.1 = [] then .nan
    else
      match fr.2 with
      | [] => .finite (decValue ip fr.1 0)
      | e :: r4 =>
        if e == 'e' || e == 'E' then
          let se :=
            match r4 with
            | '+' :: r5 => ((1 : Int), r5)
            | '-' :: r5 => ((-1 : Int), r5)
            | _ => ((1 : Int), r4)
          if se.2 ≠ [] && se.2.all Char.isDigit then
            .finite (decValue ip fr.1 (se.1 * (digitsVal 10 se.2 : Int)))
          else .nan
        else .nan

/-- Negation of a JS number. -/
def jsNegNum : JSNum → JSNum
  | .finite q => .finite (-q)
  | .posInf => .negInf
  | .negInf => .posInf
  | .nan => .nan

/-- ECMAScript StrDecimalLiteral: optional sign followed by an unsigned
decimal literal. -/
def parseSignedDecL (cs : List Char) : JSNum :=
  match cs with
  | '+' :: rest => parseUnsignedDecL rest
  | '-' :: rest => jsNegNum (parseUnsignedDecL rest)
  | _ => parseUnsignedDecL cs

/-- ECMAScript StringToNumber (`Number(s)`, and the test performed by
`isNaN(s)` on a string): trim, empty means `0`, `0x`/`0o`/`0b` literals,
otherwise a signed decimal literal; anything else is `NaN`. -/
def jsStrToNumL (cs0 : List Char) : JSNum :=
  let cs := jsTrimL cs0
  match cs with
  | [] => .finite 0
  | '0' :: x :: rest =>
    if x == 'x' || x == 'X' then parseRadixL 16 isHexDigitB rest
    else if x == 'o' || x == 'O' then parseRadixL 8 isOctDigitB rest
    else if x == 'b' || x == 'B' then parseRadixL 2 isBinDigitB rest
    else parseSignedDecL cs
  | _ => parseSignedDecL cs

/-- Model of `Number(s)` for a string argument. -/
def jsStrToNum (s : String) : JSNum := jsStrToNumL s.data

/-- Model of `parseInt(s)` on a string: trim leading whitespace, optional
sign, optional `0x` prefix, then the longest digit prefix; `NaN` when no
digit is found. -/
def jsParseIntL (cs0 : List Char) : JSNum :=
  let cs1 := jsTrimLeftL cs0
  let sg :=
    match cs1 with
    | '+' :: r => ((1 : Int), r)
    | '-' :: r => ((-1 : Int), r)
    | _ => ((1 : Int), cs1)
  match sg.2 with
  | '0' :: x :: rest =>
    if x == 'x' || x == 'X' then
      let ds := rest.takeWhile isHexDigitB
      if ds = [] then .nan
      else .finite (mkRat (sg.1 * (digitsVal 16 ds : Int)) 1)
    else
      let ds := sg.2.takeWhile Char.isDigit
      if ds = [] then .nan
      else .finite (mkRat (sg.1 * (digitsVal 10 ds : Int)) 1)
  | _ =>
    let ds := sg.2.takeWhile Char.isDigit
    if ds = [] then .nan
    else .finite (mkRat (sg.1 * (digitsVal 10 ds : Int)) 1)

/-- Model of `parseInt(v)` as used in `fillInfo`: an absent property is
`undefined`, which `parseInt` first converts to the string `"undefined"`. -/
def jsParseInt : Option String → JSNum
  | none => jsParseIntL "undefined".data
  | some s => jsParseIntL s.data

/-- Multiplicity of a prime `p` in `n`, computed with a structural fuel
argument so the definition reduces in the kernel. -/
def multOfFuel (p : Nat) : Nat → Nat → Nat
  | 0, _ => 0
  | fuel + 1, n =>
    if 1 < p && 1 ≤ n && n % p = 0 then 1 + multOfFuel p fuel (n / p) else 0

/-- Multiplicity of a prime `p` in `n`. -/
def multOf (p n : Nat) : Nat := multOfFuel p n n

/-- Decimal rendering of a rational whose denominator divides a power of 10
(the only finite non-integers the embedded program produces come from
decimal literals, so this matches `Number::toString`; other rationals get a
fraction rendering that the program never reaches, and the exponent notation
JS switches to for very large or small magnitudes is not modelled). -/
def ratDecString (q : ℚ) : String :=
  if q.den = 1 then toString q.num
  else
    let k := max (multOf 2 q.den) (multOf 5 q.den)
    let m := q * mkRat ((10 ^ k : Nat) : Int) 1
    if m.den = 1 then
      let s0 := toString m.num.natAbs
      let s := if s0.length ≤ k then
        String.mk (List.replicate (k + 1 - s0.length) '0') ++ s0 else s0
      (if q.num < 0 then "-" else "") ++ s.dropRight k ++ "." ++ s.takeRight k
    else toString q.num ++ "/" ++ toString q.den

/-- Model of `String(n)` for a JS number. -/
def jsNumToString : JSNum → String
  | .nan => "NaN"
  | .posInf => "Infinity"
  | .negInf => "-Infinity"
  | .finite q => ratDecString q

/-! ## JavaScript values -/

/-- The JavaScript values the embedded program passes around: `undefined`
(an absent object property), strings, numbers and booleans. -/
inductive JSVal where
  | undef
  | str (s : String)
  | num (n : JSNum)
  | bool (b : Bool)
deriving DecidableEq, Repr

/-- Model of the `value == null` guard (loose equality with `null` holds
exactly for `null` and `undefined`; the program only ever produces
`undefined`). -/
def jsIsNullish : JSVal → Bool
  | .undef => true
  | _ => false

/-- Model of `!!v`. -/
def jsTruthy : JSVal → Bool
  | .undef => false
  | .str s => !(s == "")
  | .num n =>
    match n with
    | .finite q => !(q == 0)
    | .nan => false
    | _ => true
  | .bool b => b

/-- Model of `String(v)`. -/
def jsValToString : JSVal → String
  | .undef => "undefined"
  | .str s => s
  | .num n => jsNumToString n
  | .bool b => if b then "true" else "false"

/-- An optional string, the type of `player.basic[k]`-style lookups
(`undefined` when absent). -/
abbrev OStr := Option String

/-- Wraps an optional string as a JS value. -/
def jsOfOptStr : OStr → JSVal
  | none => .undef
  | some s => .str s

/-! ## The parsed player record -/

/-- Insertion-ordered string-keyed map update: overwrites in place on an
existing key, appends otherwise — JS object assignment semantics. -/
def upsert {α : Type} (k : String) (v : α) :
    List (String × α) → List (String × α)
  | [] => [(k, v)]
  | (k', v') :: rest =>
    if k' = k then (k, v) :: rest else (k', v') :: upsert k v rest

/-- The structured record produced by `parsePlayerText`. -/
structure Player where
  basic : List (String × String)
  appearance : List (String × String)
  stats : List (String × JSVal)
  skills : List (String × Bool)
  comPlayingStyles : List (String × Bool)
  positions : List (String × String)
  playingStyle : String
deriving DecidableEq, Repr

/-- The empty record the parser starts from. -/
def initPlayer : Player :=
  { basic := [], appearance := [], stats := [], skills := [],
    comPlayingStyles := [], positions := [], playingStyle := "" }

/-- The parser's current-section cursor. -/
inductive Sec where
  | basic
  | appearance
  | stats
  | skills
  | comPlayingStyles
  | playingStyle
deriving DecidableEq, Repr

/-- Whether a line matches one of the five case-insensitive section-header
patterns. -/
def isHeaderLine (line : String) : Bool :=
  ciHasStart line "APPEARANCE:" || ciHasStart line "STATS:" ||
  ciHasStart line "CARD PLAYER SKILL:" || ciHasStart line "CARD STYLE COM:" ||
  ciHasStart line "PLAYING STYLE:"

/-- The value stored for a stats line: `isNaN(val) ? val : Number(val)` —
the string itself when it does not read as a number, the number otherwise. -/
def statValOf (v : String) : JSVal :=
  match jsStrToNum v with
  | .nan => JSVal.str v
  | n => JSVal.num n

/-- One comma-separated positions token: trim, skip if empty, strip a
leading `*` for tier `"A"`, otherwise tier `"B"` (the source binds the
trimmed token as `pos` once; it is inlined here). -/
def posStep (m : List (String × String)) (tok : String) :
    List (String × String) :=
  if jsTrim tok = "" then m
  else if startsWithStar (jsTrim tok) then upsert (dropOneChar (jsTrim tok)) "A" m
  else upsert (jsTrim tok) "B" m

/-- Processing of one already-trimmed, non-empty line of the input,
mirroring the body of the `for (const line of lines)` loop of
`parsePlayerText`. -/
def processLine (ps : Player × Sec) (line : String) : Player × Sec :=
  let player := ps.1
  let sec := ps.2
  if ciHasStart line "APPEARANCE:" then (player, .appearance)
  else if ciHasStart line "STATS:" then (player, .stats)
  else if ciHasStart line "CARD PLAYER SKILL:" then (player, .skills)
  else if ciHasStart line "CARD STYLE COM:" then (player, .comPlayingStyles)
  else if ciHasStart line "PLAYING STYLE:" then (player, .playingStyle)
  else
    match sec with
    | .basic =>
      match (jsSplitOn ':' line).map jsTrim with
      | [] => (player, sec)
      | [_] => (player, sec)
      | key :: val :: _ =>
        if key = "" then (player, sec)
        else if key = "Positions" then
          ({ player with
             positions := (jsSplitOn ',' val).foldl posStep player.positions },
           sec)
        else ({ player with basic := upsert key val player.basic }, sec)
    | .appearance =>
      match (jsSplitOn ':' line).map jsTrim with
      | [] => (player, sec)
      | [_] => (player, sec)
      | key :: val :: _ =>
        if key = "" then (player, sec)
        else ({ player with appearance := upsert key val player.appearance }, sec)
    | .stats =>
      match (jsSplitOn ':' line).map jsTrim with
      | [] => (player, sec)
      | [_] => (player, sec)
      | key :: val :: _ =>
        if key = "" then (player, sec)
        else
          ({ player with stats := upsert key (statValOf val) player.stats }, sec)
    | .skills =>
      if startsWithStar line then
        ({ player with
           skills := upsert (jsTrim (removeFirstStar line)) true player.skills },
         sec)
      else (player, sec)
    | .comPlayingStyles =>
      if startsWithStar line then
        ({ player with
           comPlayingStyles :=
             upsert (jsTrim (removeFirstStar line)) true player.comPlayingStyles },
         sec)
      else (player, sec)
    | .playingStyle =>
      if line = "" then (player, sec)
      else ({ player with playingStyle := line }, sec)

/-- The line sequence the parser iterates over: split into lines, trim each,
drop the empty ones (`text.split(/\r?\n/).map(l => l.trim()).filter(Boolean)`). -/
def procLines (text : String) : List String :=
  ((jsSplitLines text).map jsTrim).filter (fun l => !(l == ""))

/-- Model of `parsePlayerText`: fold the per-line processing over the line
sequence, starting in the default (`basic`) section. -/
def parsePlayerText (text : String) : Player :=
  ((procLines text).foldl processLine (initPlayer, Sec.basic)).1

/-! ## String-primitive lemmas -/

theorem dropWhile_dropWhile (p : α → Bool) (l : List α) :
    (l.dropWhile p).dropWhile p = l.dropWhile p := by
  induction l with
  | nil => rfl
  | cons c l ih =>
    by_cases h : p c
    · simp [List.dropWhile_cons, h, ih]
    · simp [List.dropWhile_cons, h]

theorem jsTrimL_idem (cs : List Char) : jsTrimL (jsTrimL cs) = jsTrimL cs := by
  unfold jsTrimL
  have hstep1 :
      (((cs.dropWhile isJsWhitespace).reverse.dropWhile isJsWhitespace).reverse).dropWhile
        isJsWhitespace =
      ((cs.dropWhile isJsWhitespace).reverse.dropWhile isJsWhitespace).reverse := by
    cases hr :
        ((cs.dropWhile isJsWhitespace).reverse.dropWhile isJsWhitespace).reverse with
    | nil => simp
    | cons x r' =>
      have hae : cs.dropWhile isJsWhitespace =
          ((cs.dropWhile isJsWhitespace).reverse.dropWhile isJsWhitespace).reverse ++
            ((cs.dropWhile isJsWhitespace).reverse.takeWhile isJsWhitespace).reverse := by
        conv_lhs =>
          rw [← (cs.dropWhile isJsWhitespace).reverse_reverse,
            ← List.takeWhile_append_dropWhile isJsWhitespace
              (cs.dropWhile isJsWhitespace).reverse]
        rw [List.reverse_append]
      have hheada : (cs.dropWhile isJsWhitespace).head? = some x := by
        rw [hae, hr]; rfl
      have hhw := List.head?_dropWhile_not isJsWhitespace cs
      rw [hheada] at hhw
      simp only at hhw
      simp [List.dropWhile_cons, hhw]
  rw [hstep1, List.reverse_reverse, dropWhile_dropWhile]

theorem jsTrim_idem (s : String) : jsTrim (jsTrim s) = jsTrim s :=
  congrArg String.mk (jsTrimL_idem s.data)

theorem splitLinesL_cons_ne (c : Char) (cs : List Char) (h1 : c ≠ '\n')
    (h2 : c ≠ '\r') : splitLinesL (c :: cs) = glueHead c (splitLinesL cs) := by
  rw [splitLinesL.eq_def]
  split <;> simp_all [glueHead]

theorem splitLinesL_single : ∀ cs : List Char, '\n' ∉ cs → '\r' ∉ cs →
    splitLinesL cs = [cs]
  | [], _, _ => rfl
  | c :: cs, h1, h2 => by
    have hc1 : c ≠ '\n' := by rintro rfl; exact h1 (List.mem_cons_self _ _)
    have hc2 : c ≠ '\r' := by rintro rfl; exact h2 (List.mem_cons_self _ _)
    have h1' : '\n' ∉ cs := fun hm => h1 (List.mem_cons_of_mem c hm)
    have h2' : '\r' ∉ cs := fun hm => h2 (List.mem_cons_of_mem c hm)
    rw [splitLinesL_cons_ne c cs hc1 hc2, splitLinesL_single cs h1' h2']
    rfl

theorem splitLinesL_append : ∀ xs ys : List Char, '\n' ∉ xs → '\r' ∉ xs →
    splitLinesL (xs ++ '\n' :: ys) = xs :: splitLinesL ys
  | [], ys, _, _ => by
    show splitLinesL ('\n' :: ys) = [] :: splitLinesL ys
    rw [splitLinesL.eq_def]
    split
    · simp_all
    · simp_all
    · simp_all
    · rename_i hall hne heq
      injection heq with heq1 heq2
      exact absurd heq1.symm hne
  | x :: xs, ys, h1, h2 => by
    have hx1 : x ≠ '\n' := by rintro rfl; exact h1 (List.mem_cons_self _ _)
    have hx2 : x ≠ '\r' := by rintro rfl; exact h2 (List.mem_cons_self _ _)
    have h1' : '\n' ∉ xs := fun hm => h1 (List.mem_cons_of_mem x hm)
    have h2' : '\r' ∉ xs := fun hm => h2 (List.mem_cons_of_mem x hm)
    rw [List.cons_append, splitLinesL_cons_ne x _ hx1 hx2,
      splitLinesL_append xs ys h1' h2']
    rfl

theorem splitOnCharL_cons (sep c : Char) (cs : List Char) :
    splitOnCharL sep (c :: cs) =
      if c = sep then [] :: splitOnCharL sep cs
      else glueHead c (splitOnCharL sep cs) := rfl

theorem splitOnCharL_no_sep (sep : Char) :
    ∀ cs : List Char, sep ∉ cs → splitOnCharL sep cs = [cs]
  | [], _ => rfl
  | c :: cs, h => by
    have hc : ¬(c = sep) := by rintro rfl; exact h (List.mem_cons_self _ _)
    have hcs : sep ∉ cs := fun hm => h (List.mem_cons_of_mem c hm)
    rw [splitOnCharL_cons, if_neg hc, splitOnCharL_no_sep sep cs hcs]
    rfl

theorem splitOnCharL_append (sep : Char) :
    ∀ xs ys : List Char, sep ∉ xs →
      splitOnCharL sep (xs ++ sep :: ys) = xs :: splitOnCharL sep ys
  | [], ys, _ => by
    rw [List.nil_append, splitOnCharL_cons, if_pos rfl]
  | x :: xs, ys, h => by
    have hx : ¬(x = sep) := by rintro rfl; exact h (List.mem_cons_self _ _)
    have h' : sep ∉ xs := fun hm => h (List.mem_cons_of_mem x hm)
    rw [List.cons_append, splitOnCharL_cons, if_neg hx,
      splitOnCharL_append sep xs ys h']
    rfl

/-! ## Parser pipeline lemmas -/

theorem procLines_single (line : String) (h1 : '\n' ∉ line.data)
    (h1r : '\r' ∉ line.data) (h2 : jsTrim line = line) (h3 : line ≠ "") :
    procLines line = [line] := by
  unfold procLines jsSplitLines
  rw [splitLinesL_single line.data h1 h1r]
  have hmk : String.mk line.data = line := rfl
  have hne : (line == "") = false := by
    cases hb : line == "" with
    | false => rfl
    | true => exact absurd (by simpa using hb) h3
  simp [hmk, h2, hne]

theorem parsePlayerText_single (line : String) (h1 : '\n' ∉ line.data)
    (h1r : '\r' ∉ line.data) (h2 : jsTrim line = line) (h3 : line ≠ "") :
    parsePlayerText line = (processLine (initPlayer, Sec.basic) line).1 := by
  unfold parsePlayerText
  rw [procLines_single line h1 h1r h2 h3]
  rfl

theorem procLines_two (hd line : String) (ha : '\n' ∉ hd.data)
    (hb : '\r' ∉ hd.data) (hc : jsTrim hd = hd) (hdne : hd ≠ "")
    (h1 : '\n' ∉ line.data) (h1r : '\r' ∉ line.data)
    (h2 : jsTrim line = line) (h3 : line ≠ "") :
    procLines (hd ++ "\n" ++ line) = [hd, line] := by
  unfold procLines jsSplitLines
  have hdata : (hd ++ "\n" ++ line).data = hd.data ++ '\n' :: line.data := by
    simp [String.data_append]
  rw [hdata, splitLinesL_append hd.data line.data ha hb,
    splitLinesL_single line.data h1 h1r]
  have hmk1 : String.mk hd.data = hd := rfl
  have hmk2 : String.mk line.data = line := rfl
  have hne1 : (hd == "") = false := by
    cases hb' : hd == "" with
    | false => rfl
    | true => exact absurd (by simpa using hb') hdne
  have hne2 : (line == "") = false := by
    cases hb' : line == "" with
    | false => rfl
    | true => exact absurd (by simpa using hb') h3
  simp [hmk1, hmk2, hc, h2, hne1, hne2]

theorem parsePlayerText_two (hd line : String) (ha : '\n' ∉ hd.data)
    (hb : '\r' ∉ hd.data) (hc : jsTrim hd = hd) (hdne : hd ≠ "")
    (h1 : '\n' ∉ line.data) (h1r : '\r' ∉ line.data)
    (h2 : jsTrim line = line) (h3 : line ≠ "") :
    parsePlayerText (hd ++ "\n" ++ line) =
      (processLine (processLine (initPlayer, Sec.basic) hd) line).1 := by
  unfold parsePlayerText
  rw [procLines_two hd line ha hb hc hdne h1 h1r h2 h3]
  rfl

/-! ## Per-section step lemmas for `processLine` -/

theorem header_false_parts (line : String) (h : isHeaderLine line = false) :
    ciHasStart line "APPEARANCE:" = false ∧ ciHasStart line "STATS:" = false ∧
    ciHasStart line "CARD PLAYER SKILL:" = false ∧
    ciHasStart line "CARD STYLE COM:" = false ∧
    ciHasStart line "PLAYING STYLE:" = false := by
  unfold isHeaderLine at h
  simp only [Bool.or_eq_false_iff] at h
  exact ⟨h.1.1.1.1, h.1.1.1.2, h.1.1.2, h.1.2, h.2⟩

theorem processLine_stats_step (pl : Player) (line k v : String)
    (rest : List String) (h : isHeaderLine line = false)
    (hsplit : (jsSplitOn ':' line).map jsTrim = k :: v :: rest)
    (hk : k ≠ "") :
    processLine (pl, Sec.stats) line =
      ({ pl with stats := upsert k (statValOf v) pl.stats }, Sec.stats) := by
  obtain ⟨h1, h2, h3, h4, h5⟩ := header_false_parts line h
  unfold processLine
  simp only [h1, h2, h3, h4, h5, Bool.false_eq_true, if_false, hsplit]
  rw [if_neg hk]

theorem processLine_appearance_step (pl : Player) (line k v : String)
    (rest : List String) (h : isHeaderLine line = false)
    (hsplit : (jsSplitOn ':' line).map jsTrim = k :: v :: rest)
    (hk : k ≠ "") :
    processLine (pl, Sec.appearance) line =
      ({ pl with appearance := upsert k v pl.appearance }, Sec.appearance) := by
  obtain ⟨h1, h2, h3, h4, h5⟩ := header_false_parts line h
  unfold processLine
  simp only [h1, h2, h3, h4, h5, Bool.false_eq_true, if_false, hsplit]
  rw [if_neg hk]

theorem processLine_basic_step (pl : Player) (line k v : String)
    (rest : List String) (h : isHeaderLine line = false)
    (hsplit : (jsSplitOn ':' line).map jsTrim = k :: v :: rest)
    (hk : k ≠ "") (hp : k ≠ "Positions") :
    processLine (pl, Sec.basic) line =
      ({ pl with basic := upsert k v pl.basic }, Sec.basic) := by
  obtain ⟨h1, h2, h3, h4, h5⟩ := header_false_parts line h
  unfold processLine
  simp only [h1, h2, h3, h4, h5, Bool.false_eq_true, if_false, hsplit]
  rw [if_neg hk, if_neg hp]

theorem processLine_positions_step (pl : Player) (line v : String)
    (rest : List String) (h : isHeaderLine line = false)
    (hsplit : (jsSplitOn ':' line).map jsTrim = "Positions" :: v :: rest) :
    processLine (pl, Sec.basic) line =
      ({ pl with
         positions := (jsSplitOn ',' v).foldl posStep pl.positions },
       Sec.basic) := by
  obtain ⟨h1, h2, h3, h4, h5⟩ := header_false_parts line h
  unfold processLine
  simp only [h1, h2, h3, h4, h5, Bool.false_eq_true, if_false, hsplit]
  simp

/-! ## Parser claims -/

/-- Claim C2, counterexample: the claim says that for a line whose value
itself contains a colon, such as `"Name: A: B"`, the stored value is the
whole text after the first colon (`"A: B"` after trimming).  The parser in
fact splits on every colon and keeps only the second segment, storing `"A"`
and discarding `" B"`. -/
theorem claimC2_counterexample :
    List.lookup "Name" (parsePlayerText "Name: A: B").basic = some "A" ∧
    jsTrim " A: B" = "A: B" ∧
    List.lookup "Name" (parsePlayerText "Name: A: B").basic ≠ some "A: B" := by
  decide

/-- Claim C2, amended: for a basic- or appearance-section line, the parser
splits the line on every colon, takes the first segment (trimmed) as the
label and the second segment (trimmed) as the value; any text after a
second colon is discarded. -/
theorem claimC2_amended (line k v : String) (rest : List String)
    (h1 : '\n' ∉ line.data) (h1r : '\r' ∉ line.data)
    (h2 : jsTrim line = line) (h3 : line ≠ "")
    (hh : isHeaderLine line = false)
    (hsplit : (jsSplitOn ':' line).map jsTrim = k :: v :: rest)
    (hk : k ≠ "") (hp : k ≠ "Positions") :
    (parsePlayerText line).basic = [(k, v)] ∧
    (parsePlayerText ("APPEARANCE:" ++ "\n" ++ line)).appearance = [(k, v)] := by
  constructor
  · rw [parsePlayerText_single line h1 h1r h2 h3,
      processLine_basic_step initPlayer line k v rest hh hsplit hk hp]
    rfl
  · rw [parsePlayerText_two "APPEARANCE:" line (by decide) (by decide)
      (by decide) (by decide) h1 h1r h2 h3,
      (by decide : processLine (initPlayer, Sec.basic) "APPEARANCE:" =
        (initPlayer, Sec.appearance)),
      processLine_appearance_step initPlayer line k v rest hh hsplit hk]
    rfl

/-- Witness for the amended claim C2 at the concrete line `"Name: A: B"`. -/
theorem claimC2_witness :
    (parsePlayerText "Name: A: B").basic = [("Name", "A")] ∧
    (parsePlayerText ("APPEARANCE:" ++ "\n" ++ "Name: A: B")).appearance =
      [("Name", "A")] :=
  claimC2_amended "Name: A: B" "Name" "A" ["B"] (by decide) (by decide)
    (by decide) (by decide) (by decide) (by decide) (by decide) (by decide)

/-- Claim C4: a stats-section line `K: V` stores the number `V` denotes when
the entire trimmed string reads as a number under JS `Number` semantics, and
the original string otherwise (`statValOf` is exactly the
`isNaN(val) ? val : Number(val)` dichotomy over the whole-string
`jsStrToNum` test, not a prefix parse). -/
theorem claimC4_stats_coercion (line k v : String) (rest : List String)
    (h1 : '\n' ∉ line.data) (h1r : '\r' ∉ line.data)
    (h2 : jsTrim line = line) (h3 : line ≠ "")
    (hh : isHeaderLine line = false)
    (hsplit : (jsSplitOn ':' line).map jsTrim = k :: v :: rest)
    (hk : k ≠ "") :
    (parsePlayerText ("STATS:" ++ "\n" ++ line)).stats = [(k, statValOf v)] := by
  rw [parsePlayerText_two "STATS:" line (by decide) (by decide) (by decide)
    (by decide) h1 h1r h2 h3,
    (by decide : processLine (initPlayer, Sec.basic) "STATS:" =
      (initPlayer, Sec.stats)),
    processLine_stats_step initPlayer line k v rest hh hsplit hk]
  rfl

/-- Witness for claim C4: `"85"` is stored as the number 85, while the
non-numeric `"RWF"` and the numeric-prefixed `"85kg"` are stored as the
original strings (whole-string test, not a prefix parse). -/
theorem claimC4_witness :
    (parsePlayerText ("STATS:" ++ "\n" ++ "Offensive Awareness: 85")).stats =
      [("Offensive Awareness", JSVal.num (JSNum.finite 85))] ∧
    (parsePlayerText ("STATS:" ++ "\n" ++ "Pos: RWF")).stats =
      [("Pos", JSVal.str "RWF")] ∧
    (parsePlayerText ("STATS:" ++ "\n" ++ "Height: 85kg")).stats =
      [("Height", JSVal.str "85kg")] := by
  refine ⟨?_, ?_, ?_⟩
  · rw [claimC4_stats_coercion "Offensive Awareness: 85" "Offensive Awareness"
      "85" [] (by decide) (by decide) (by decide) (by decide) (by decide)
      (by decide) (by decide)]
    decide
  · rw [claimC4_stats_coercion "Pos: RWF" "Pos" "RWF" [] (by decide)
      (by decide) (by decide) (by decide) (by decide) (by decide) (by decide)]
    decide
  · rw [claimC4_stats_coercion "Height: 85kg" "Height" "85kg" [] (by decide)
      (by decide) (by decide) (by decide) (by decide) (by decide) (by decide)]
    decide

/-- Claim C10: a stats-section line whose value is empty or whitespace-only
(for example `"Curl:"`) is not skipped and does not store a string: the
empty trimmed value passes the numeric test (`Number("") = 0`) and the
number 0 is stored under the label. -/
theorem claimC10_empty_stat (line k : String) (rest : List String)
    (h1 : '\n' ∉ line.data) (h1r : '\r' ∉ line.data)
    (h2 : jsTrim line = line) (h3 : line ≠ "")
    (hh : isHeaderLine line = false)
    (hsplit : (jsSplitOn ':' line).map jsTrim = k :: "" :: rest)
    (hk : k ≠ "") :
    (parsePlayerText ("STATS:" ++ "\n" ++ line)).stats =
      [(k, JSVal.num (JSNum.finite 0))] := by
  rw [parsePlayerText_two "STATS:" line (by decide) (by decide) (by decide)
    (by decide) h1 h1r h2 h3,
    (by decide : processLine (initPlayer, Sec.basic) "STATS:" =
      (initPlayer, Sec.stats)),
    processLine_stats_step initPlayer line k "" rest hh hsplit hk]
  rfl

/-- Witness for claim C10 at the concrete line `"Curl:"`. -/
theorem claimC10_witness :
    (parsePlayerText ("STATS:" ++ "\n" ++ "Curl:")).stats =
      [("Curl", JSVal.num (JSNum.finite 0))] :=
  claimC10_empty_stat "Curl:" "Curl" [] (by decide) (by decide) (by decide)
    (by decide) (by decide) (by decide) (by decide)

/-- Claim C5: a basic-section `Positions` line comma-splits its value, trims
each token independently, skips empty tokens, maps a `*`-prefixed token
(with the marker stripped) to tier `"A"` and an unprefixed token to tier
`"B"`, and contributes nothing to the basic mapping. -/
theorem claimC5_positions (line v : String) (rest : List String)
    (h1 : '\n' ∉ line.data) (h1r : '\r' ∉ line.data)
    (h2 : jsTrim line = line) (h3 : line ≠ "")
    (hh : isHeaderLine line = false)
    (hsplit : (jsSplitOn ':' line).map jsTrim = "Positions" :: v :: rest) :
    (parsePlayerText line).positions = (jsSplitOn ',' v).foldl posStep [] ∧
    (parsePlayerText line).basic = [] := by
  rw [parsePlayerText_single line h1 h1r h2 h3,
    processLine_positions_step initPlayer line v rest hh hsplit]
  exact ⟨rfl, rfl⟩

/-- Witness for claim C5 at the spec's example `"Positions: *RWF,CF,AMF"`:
the result is `{RWF: "A", CF: "B", AMF: "B"}` and the basic mapping stays
empty. -/
theorem claimC5_witness :
    (parsePlayerText "Positions: *RWF,CF,AMF").positions =
      [("RWF", "A"), ("CF", "B"), ("AMF", "B")] ∧
    (parsePlayerText "Positions: *RWF,CF,AMF").basic = [] := by
  have h := claimC5_positions "Positions: *RWF,CF,AMF" "*RWF,CF,AMF" []
    (by decide) (by decide) (by decide) (by decide) (by decide) (by decide)
  exact ⟨h.1.trans (by decide), h.2⟩

/-! ## Claim C6: no section header means everything stays basic -/

theorem processLine_basic_shape (pl : Player) (line : String)
    (h : isHeaderLine line = false) :
    ∃ b q, processLine (pl, Sec.basic) line =
      ({ pl with basic := b, positions := q }, Sec.basic) := by
  obtain ⟨h1, h2, h3, h4, h5⟩ := header_false_parts line h
  unfold processLine
  simp only [h1, h2, h3, h4, h5, Bool.false_eq_true, if_false]
  rcases hm : (jsSplitOn ':' line).map jsTrim with _ | ⟨k, tl⟩
  · exact ⟨pl.basic, pl.positions, rfl⟩
  · rcases tl with _ | ⟨v, tl2⟩
    · exact ⟨pl.basic, pl.positions, rfl⟩
    · by_cases hk : k = ""
      · exact ⟨pl.basic, pl.positions, by simp [hk]⟩
      · by_cases hp : k = "Positions"
        · exact ⟨pl.basic, (jsSplitOn ',' v).foldl posStep pl.positions,
            by simp [hk, hp]⟩
        · exact ⟨upsert k v pl.basic, pl.positions, by simp [hk, hp]⟩

theorem foldl_basic_only : ∀ (ls : List String) (pl : Player),
    (∀ l ∈ ls, isHeaderLine l = false) →
    ∃ pl', ls.foldl processLine (pl, Sec.basic) = (pl', Sec.basic) ∧
      pl'.appearance = pl.appearance ∧ pl'.stats = pl.stats ∧
      pl'.skills = pl.skills ∧ pl'.comPlayingStyles = pl.comPlayingStyles ∧
      pl'.playingStyle = pl.playingStyle
  | [], pl, _ => ⟨pl, rfl, rfl, rfl, rfl, rfl, rfl⟩
  | l :: ls, pl, h => by
    obtain ⟨b, q, hstep⟩ :=
      processLine_basic_shape pl l (h l (List.mem_cons_self _ _))
    obtain ⟨pl', hfold, ha, hs, hk, hcm, hps⟩ :=
      foldl_basic_only ls { pl with basic := b, positions := q }
        (fun x hx => h x (List.mem_cons_of_mem _ hx))
    exact ⟨pl', by rw [List.foldl_cons, hstep, hfold], by simp [ha],
      by simp [hs], by simp [hk], by simp [hcm], by simp [hps]⟩

/-- Claim C6: when no line of the input matches any of the recognized
case-insensitive section-header patterns, every line is handled by the
default (basic) section, so the returned record's appearance, stats, skills
and COM-styles mappings are empty and the playing style keeps its default
value. -/
theorem claimC6_default_section (text : String)
    (h : ∀ l ∈ procLines text, isHeaderLine l = false) :
    (parsePlayerText text).appearance = [] ∧
    (parsePlayerText text).stats = [] ∧
    (parsePlayerText text).skills = [] ∧
    (parsePlayerText text).comPlayingStyles = [] ∧
    (parsePlayerText text).playingStyle = "" := by
  obtain ⟨pl', hfold, ha, hs, hk, hcm, hps⟩ :=
    foldl_basic_only (procLines text) initPlayer h
  unfold parsePlayerText
  rw [hfold]
  exact ⟨ha, hs, hk, hcm, hps⟩

/-- Witness for claim C6 on a two-line header-free input. -/
theorem claimC6_witness :
    (parsePlayerText "Name: X\nAge: 9").appearance = [] ∧
    (parsePlayerText "Name: X\nAge: 9").stats = [] ∧
    (parsePlayerText "Name: X\nAge: 9").skills = [] ∧
    (parsePlayerText "Name: X\nAge: 9").comPlayingStyles = [] ∧
    (parsePlayerText "Name: X\nAge: 9").playingStyle = "" :=
  claimC6_default_section "Name: X\nAge: 9" (by decide)

/-! ## Claim C3: key trimming and non-emptiness -/

/-- Claim C3, counterexample: the claim says every key of every mapping is
trimmed and non-empty, and in particular that `"* RWF"`-style positions
entries and marker-only skills lines never introduce an empty or untrimmed
key.  In fact a starred positions token is not re-trimmed after the marker
is stripped (`"* X"` yields the untrimmed key `" X"`), and a skills line
consisting of the marker alone yields the empty key. -/
theorem claimC3_counterexample :
    (parsePlayerText "Positions: * X").positions = [(" X", "A")] ∧
    jsTrim " X" ≠ " X" ∧
    (parsePlayerText ("CARD PLAYER SKILL:" ++ "\n" ++ "*")).skills =
      [("", true)] := by
  decide

theorem upsert_forall {α : Type} (P : String × α → Prop) (k : String) (v : α) :
    ∀ (m : List (String × α)), (∀ kv ∈ m, P kv) → P (k, v) →
      ∀ kv ∈ upsert k v m, P kv
  | [], _, hkv => by
    intro kv h
    simp only [upsert, List.mem_singleton] at h
    subst h; exact hkv
  | (k', v') :: tl, hm, hkv => by
    intro kv h
    unfold upsert at h
    by_cases he : k' = k
    · rw [if_pos he] at h
      rcases List.mem_cons.mp h with h | h
      · subst h; exact hkv
      · exact hm kv (List.mem_cons_of_mem _ h)
    · rw [if_neg he] at h
      rcases List.mem_cons.mp h with h | h
      · subst h; exact hm _ (List.mem_cons_self _ _)
      · exact upsert_forall P k v tl
          (fun x hx => hm x (List.mem_cons_of_mem _ hx)) hkv kv h

theorem foldl_preserve {α β : Type} (P : α → Prop) (step : α → β → α)
    (hstep : ∀ a b, P a → P (step a b)) :
    ∀ (l : List β) (a : α), P a → P (l.foldl step a)
  | [], _, ha => ha
  | b :: l, a, ha => foldl_preserve P step hstep l (step a b) (hstep a b ha)

/-- The key invariant the record actually maintains. -/
def KeysInv (pl : Player) : Prop :=
  (∀ kv ∈ pl.basic, jsTrim kv.1 = kv.1 ∧ kv.1 ≠ "") ∧
  (∀ kv ∈ pl.appearance, jsTrim kv.1 = kv.1 ∧ kv.1 ≠ "") ∧
  (∀ kv ∈ pl.stats, jsTrim kv.1 = kv.1 ∧ kv.1 ≠ "") ∧
  (∀ kv ∈ pl.skills, jsTrim kv.1 = kv.1) ∧
  (∀ kv ∈ pl.comPlayingStyles, jsTrim kv.1 = kv.1) ∧
  (∀ kv ∈ pl.positions, kv.2 = "B" → jsTrim kv.1 = kv.1 ∧ kv.1 ≠ "")

theorem posStep_forall (m : List (String × String)) (tok : String)
    (h : ∀ kv ∈ m, kv.2 = "B" → jsTrim kv.1 = kv.1 ∧ kv.1 ≠ "") :
    ∀ kv ∈ posStep m tok, kv.2 = "B" → jsTrim kv.1 = kv.1 ∧ kv.1 ≠ "" := by
  unfold posStep
  split_ifs with h1 h2
  · exact h
  · exact upsert_forall _ _ _ m h (by intro hb; simp at hb)
  · exact upsert_forall _ _ _ m h (fun _ => ⟨jsTrim_idem tok, h1⟩)

theorem processLine_keys (pl : Player) (s : Sec) (line : String)
    (h : KeysInv pl) : KeysInv (processLine (pl, s) line).1 := by
  obtain ⟨hb, ha, hst, hsk, hcm, hpos⟩ := h
  unfold processLine
  by_cases h1 : ciHasStart line "APPEARANCE:" = true
  · simp only [h1, if_true]
    exact ⟨hb, ha, hst, hsk, hcm, hpos⟩
  rw [Bool.not_eq_true] at h1
  simp only [h1, Bool.false_eq_true, if_false]
  by_cases h2 : ciHasStart line "STATS:" = true
  · simp only [h2, if_true]
    exact ⟨hb, ha, hst, hsk, hcm, hpos⟩
  rw [Bool.not_eq_true] at h2
  simp only [h2, Bool.false_eq_true, if_false]
  by_cases h3 : ciHasStart line "CARD PLAYER SKILL:" = true
  · simp only [h3, if_true]
    exact ⟨hb, ha, hst, hsk, hcm, hpos⟩
  rw [Bool.not_eq_true] at h3
  simp only [h3, Bool.false_eq_true, if_false]
  by_cases h4 : ciHasStart line "CARD STYLE COM:" = true
  · simp only [h4, if_true]
    exact ⟨hb, ha, hst, hsk, hcm, hpos⟩
  rw [Bool.not_eq_true] at h4
  simp only [h4, Bool.false_eq_true, if_false]
  by_cases h5 : ciHasStart line "PLAYING STYLE:" = true
  · simp only [h5, if_true]
    exact ⟨hb, ha, hst, hsk, hcm, hpos⟩
  rw [Bool.not_eq_true] at h5
  simp only [h5, Bool.false_eq_true, if_false]
  cases s with
  | basic =>
    dsimp only
    rcases hraw : jsSplitOn ':' line with _ | ⟨x, xs⟩
    · simp only [hraw, List.map_nil]
      exact ⟨hb, ha, hst, hsk, hcm, hpos⟩
    · rcases xs with _ | ⟨y, ys⟩
      · simp only [hraw, List.map_cons, List.map_nil]
        exact ⟨hb, ha, hst, hsk, hcm, hpos⟩
      · simp only [hraw, List.map_cons]
        split_ifs with hk hp
        · exact ⟨hb, ha, hst, hsk, hcm, hpos⟩
        · refine ⟨hb, ha, hst, hsk, hcm, ?_⟩
          exact foldl_preserve _ posStep
            (fun m tok hm => posStep_forall m tok hm)
            (jsSplitOn ',' (jsTrim y)) pl.positions hpos
        · refine ⟨?_, ha, hst, hsk, hcm, hpos⟩
          exact upsert_forall _ _ _ pl.basic hb ⟨jsTrim_idem x, hk⟩
  | appearance =>
    dsimp only
    rcases hraw : jsSplitOn ':' line with _ | ⟨x, xs⟩
    · simp only [hraw, List.map_nil]
      exact ⟨hb, ha, hst, hsk, hcm, hpos⟩
    · rcases xs with _ | ⟨y, ys⟩
      · simp only [hraw, List.map_cons, List.map_nil]
        exact ⟨hb, ha, hst, hsk, hcm, hpos⟩
      · simp only [hraw, List.map_cons]
        split_ifs with hk
        · exact ⟨hb, ha, hst, hsk, hcm, hpos⟩
        · refine ⟨hb, ?_, hst, hsk, hcm, hpos⟩
          exact upsert_forall _ _ _ pl.appearance ha ⟨jsTrim_idem x, hk⟩
  | stats =>
    dsimp only
    rcases hraw : jsSplitOn ':' line with _ | ⟨x, xs⟩
    · simp only [hraw, List.map_nil]
      exact ⟨hb, ha, hst, hsk, hcm, hpos⟩
    · rcases xs with _ | ⟨y, ys⟩
      · simp only [hraw, List.map_cons, List.map_nil]
        exact ⟨hb, ha, hst, hsk, hcm, hpos⟩
      · simp only [hraw, List.map_cons]
        split_ifs with hk
        · exact ⟨hb, ha, hst, hsk, hcm, hpos⟩
        · refine ⟨hb, ha, ?_, hsk, hcm, hpos⟩
          exact upsert_forall _ _ _ pl.stats hst ⟨jsTrim_idem x, hk⟩
  | skills =>
    dsimp only
    split_ifs with hs
    · refine ⟨hb, ha, hst, ?_, hcm, hpos⟩
      exact upsert_forall _ _ _ pl.skills hsk
        (jsTrim_idem (removeFirstStar line))
    · exact ⟨hb, ha, hst, hsk, hcm, hpos⟩
  | comPlayingStyles =>
    dsimp only
    split_ifs with hs
    · refine ⟨hb, ha, hst, hsk, ?_, hpos⟩
      exact upsert_forall _ _ _ pl.comPlayingStyles hcm
        (jsTrim_idem (removeFirstStar line))
    · exact ⟨hb, ha, hst, hsk, hcm, hpos⟩
  | playingStyle =>
    dsimp only
    split_ifs with hs
    · exact ⟨hb, ha, hst, hsk, hcm, hpos⟩
    · exact ⟨hb, ha, hst, hsk, hcm, hpos⟩

/-- Claim C3, amended: the keys of the basic, appearance and stats mappings
are always trimmed and non-empty; skills and COM-styles keys are always
trimmed (though a marker-only line yields the empty key); positions keys of
tier `"B"` (unstarred tokens) are trimmed and non-empty, while a starred
token only has the marker stripped, so its key can be empty or start with
whitespace. -/
theorem claimC3_amended (text : String) :
    (∀ kv ∈ (parsePlayerText text).basic, jsTrim kv.1 = kv.1 ∧ kv.1 ≠ "") ∧
    (∀ kv ∈ (parsePlayerText text).appearance,
      jsTrim kv.1 = kv.1 ∧ kv.1 ≠ "") ∧
    (∀ kv ∈ (parsePlayerText text).stats, jsTrim kv.1 = kv.1 ∧ kv.1 ≠ "") ∧
    (∀ kv ∈ (parsePlayerText text).skills, jsTrim kv.1 = kv.1) ∧
    (∀ kv ∈ (parsePlayerText text).comPlayingStyles, jsTrim kv.1 = kv.1) ∧
    (∀ kv ∈ (parsePlayerText text).positions, kv.2 = "B" →
      jsTrim kv.1 = kv.1 ∧ kv.1 ≠ "") := by
  have hinv : KeysInv (parsePlayerText text) := by
    unfold parsePlayerText
    exact foldl_preserve (fun a => KeysInv a.1) processLine
      (fun a b hx => processLine_keys a.1 a.2 b hx)
      (procLines text) (initPlayer, Sec.basic)
      (by constructor <;> simp [initPlayer])
  exact hinv

/-! ## The DOM model

A node is a text node or an element.  An element carries its tag, its
`type` attribute, its `value` content attribute (what CSS attribute
selectors match — never changed by property writes), the mutable `value`
and `checked` element properties (what the React-style setters write), and
its children.  Event dispatch and the host framework's own reactions are
outside the repository and are not modelled. -/

inductive Dom where
  | textNode (content : String)
  | elem (tag itype attrVal propVal : String) (propChecked : Bool)
      (children : List Dom)

/-- Tag of an element (`""` for a text node). -/
def domTag : Dom → String
  | .textNode _ => ""
  | .elem t _ _ _ _ _ => t

/-- Value of the `type` attribute. -/
def domIType : Dom → String
  | .textNode _ => ""
  | .elem _ ty _ _ _ _ => ty

/-- Value of the `value` content attribute (what selectors match and what
`radio.value` reads for a never-dirtied input). -/
def domAttrVal : Dom → String
  | .textNode _ => ""
  | .elem _ _ av _ _ _ => av

/-- The mutable `value` property. -/
def domPropVal : Dom → String
  | .textNode _ => ""
  | .elem _ _ _ pv _ _ => pv

/-- The mutable `checked` property. -/
def domChecked : Dom → Bool
  | .textNode _ => false
  | .elem _ _ _ _ chk _ => chk

/-- Whether the node is an element. -/
def isElemNode : Dom → Bool
  | .textNode _ => false
  | .elem _ _ _ _ _ _ => true

/-- Selector `div`. -/
def isDiv (n : Dom) : Bool := domTag n == "div"

/-- Selector `label, div` (what `getElementByText` scans). -/
def isLabelOrDiv (n : Dom) : Bool := domTag n == "label" || domTag n == "div"

/-- Selector `button`. -/
def isButton (n : Dom) : Bool := domTag n == "button"

/-- Selector `input`. -/
def isInput (n : Dom) : Bool := domTag n == "input"

/-- Selector `input[type='checkbox']`. -/
def isCheckbox (n : Dom) : Bool := isInput n && domIType n == "checkbox"

/-- Selector `input[type="radio"]`. -/
def isRadio (n : Dom) : Bool := isInput n && domIType n == "radio"

/-- Selector `input[type="radio"][value="v"]`. -/
def isRadioWithValue (v : String) (n : Dom) : Bool :=
  isRadio n && domAttrVal n == v

mutual

/-- The `textContent` of a node: concatenation of all descendant text. -/
def textContent : Dom → String
  | .textNode s => s
  | .elem _ _ _ _ _ cs => textContentList cs

/-- The concatenated `textContent` of a list of children. -/
def textContentList : List Dom → String
  | [] => ""
  | c :: cs => textContent c ++ textContentList cs

end

/-- Body of `getText`: walk the child nodes; a text child contributes its
trimmed content if non-empty; with `includeChildren` an element child
contributes its trimmed `textContent` if non-empty; the first hit wins. -/
def getTextList : List Dom → Bool → String
  | [], _ => ""
  | .textNode s :: ns, inc =>
    if jsTrim s ≠ "" then jsTrim s else getTextList ns inc
  | n :: ns, inc =>
    if inc && jsTrim (textContent n) ≠ "" then jsTrim (textContent n)
    else getTextList ns inc

/-- Model of `getText(el, includeChildren)`. -/
def getText (el : Dom) (includeChildren : Bool) : String :=
  match el with
  | .textNode _ => ""
  | .elem _ _ _ _ _ cs => getTextList cs includeChildren

/-- A path of child indices locating a node inside a tree. -/
abbrev DPath := List Nat

/-- Node at a path. -/
def getNode : Dom → DPath → Option Dom
  | d, [] => some d
  | .textNode _, _ :: _ => none
  | .elem _ _ _ _ _ cs, i :: p =>
    match cs[i]? with
    | some c => getNode c p
    | none => none

/-- Update the node at a path (identity when the path is invalid). -/
def setNode : Dom → DPath → (Dom → Dom) → Dom
  | d, [], f => f d
  | .textNode s, _ :: _, _ => .textNode s
  | .elem t ty av pv chk cs, i :: p, f =>
    match cs[i]? with
    | some c => .elem t ty av pv chk (cs.set i (setNode c p f))
    | none => .elem t ty av pv chk cs

mutual

/-- All descendant elements of a node paired with their relative paths, in
document (pre-)order; this is `querySelectorAll` order, the root excluded. -/
def descElems : Dom → List (DPath × Dom)
  | .textNode _ => []
  | .elem _ _ _ _ _ cs => descElemsList 0 cs

/-- Descendant elements of a child list starting at child index `i`. -/
def descElemsList : Nat → List Dom → List (DPath × Dom)
  | _, [] => []
  | i, .textNode _ :: cs => descElemsList (i + 1) cs
  | i, c :: cs =>
    ([i], c) :: ((descElems c).map (fun pn => (i :: pn.1, pn.2)) ++
      descElemsList (i + 1) cs)

end

/-- The descendants of `r` matching a predicate, document order
(`root.querySelectorAll(sel)`). -/
def querySelectorAllP (r : Dom) (pred : Dom → Bool) : List (DPath × Dom) :=
  (descElems r).filter (fun pn => pred pn.2)

/-- The first descendant of `r` matching a predicate
(`root.querySelector(sel)`). -/
def firstDescWith (r : Dom) (pred : Dom → Bool) : Option (DPath × Dom) :=
  (descElems r).find? (fun pn => pred pn.2)

/-- Model of `getElementByText(root, text)`: the first `label` or `div`
descendant whose own first text (`getText(el, true)`) strictly equals
`text`; an `undefined` argument never matches. -/
def getElementByText (root : Dom) (text : OStr) : Option (DPath × Dom) :=
  ((descElems root).filter (fun pn => isLabelOrDiv pn.2)).find?
    (fun pn => text == some (getText pn.2 true))

/-- Model of `setReactValue(input, value)`: write `String(value)` into the
`value` property (the dispatched `input`/`change` events have no modelled
effect). -/
def setReactValue (input : Dom) (value : JSVal) : Dom :=
  match input with
  | .textNode s => .textNode s
  | .elem t ty av _ chk cs => .elem t ty av (jsValToString value) chk cs

/-- Model of `setReactChecked(input, checked)`: write `!!checked` into the
`checked` property. -/
def setReactChecked (input : Dom) (checked : JSVal) : Dom :=
  match input with
  | .textNode s => .textNode s
  | .elem t ty av pv _ cs => .elem t ty av pv (jsTruthy checked) cs

/-- Model of `setReactSelect(radio)`: set the `checked` property. -/
def setReactSelect (radio : Dom) : Dom :=
  match radio with
  | .textNode s => .textNode s
  | .elem t ty av pv _ cs => .elem t ty av pv true cs

/-- Model of `radio.click()`: the default DOM activation checks the radio
(group exclusivity through `name` attributes is host markup that the
repository never relies on and is not modelled). -/
def radioClick (radio : Dom) : Dom :=
  match radio with
  | .textNode s => .textNode s
  | .elem t ty av pv _ cs => .elem t ty av pv true cs

/-- Model of `setInputByElementText(root, elText, value)`.  The region is
addressed by its path `rootP` inside the whole document so the write can be
applied to the document. -/
def setInputByElementText (doc : Dom) (rootP : DPath) (elText : OStr)
    (value : JSVal) : Bool × Dom :=
  if jsIsNullish value then (false, doc)
  else
    match getNode doc rootP with
    | none => (false, doc)
    | some r =>
      match getElementByText r elText with
      | none => (false, doc)
      | some (pe, el) =>
        match firstDescWith el isInput with
        | none => (false, doc)
        | some (pin, _) =>
          (true, setNode doc (rootP ++ pe ++ pin)
            (fun n => setReactValue n value))

/-- Model of `setCheckboxByElementText(root, elText, value)`. -/
def setCheckboxByElementText (doc : Dom) (rootP : DPath) (elText : OStr)
    (value : JSVal) : Bool × Dom :=
  if jsIsNullish value then (false, doc)
  else
    match getNode doc rootP with
    | none => (false, doc)
    | some r =>
      match getElementByText r elText with
      | none => (false, doc)
      | some (pe, el) =>
        match firstDescWith el isCheckbox with
        | none => (false, doc)
        | some (pcb, _) =>
          (true, setNode doc (rootP ++ pe ++ pcb)
            (fun n => setReactChecked n value))

/-- String interpolation of a possibly-`undefined` value into the
`input[type="radio"][value="${value}"]` selector. -/
def ostrOrUndefined : OStr → String
  | none => "undefined"
  | some s => s

/-- Model of `setSelectByElementText(root, elText, value)`: locate the radio
of the requested value under the labelled element, simulate a click, and if
the radio still is not checked fall back to the React-style setter (in this
model the click's default activation always checks it, so the fallback is
dead code, kept for fidelity). -/
def setSelectByElementText (doc : Dom) (rootP : DPath) (elText : OStr)
    (value : OStr) : Bool × Dom :=
  match getNode doc rootP with
  | none => (false, doc)
  | some r =>
    match getElementByText r elText with
    | none => (false, doc)
    | some (pe, el) =>
      match firstDescWith el (isRadioWithValue (ostrOrUndefined value)) with
      | none => (false, doc)
      | some (pr, _) =>
        let d1 := setNode doc (rootP ++ pe ++ pr) radioClick
        match getNode d1 (rootP ++ pe ++ pr) with
        | some radio1 =>
          if domChecked radio1 then (true, d1)
          else (true, setNode d1 (rootP ++ pe ++ pr) setReactSelect)
        | none => (true, setNode d1 (rootP ++ pe ++ pr) setReactSelect)

/-- The option scan of `setComboboxByElementText`: the first `button`
descendant whose `getText(b, anyText)` strictly equals the requested
option. -/
def findComboOpt (el : Dom) (anyText : Bool) (o : OStr) : Option (DPath × Dom) :=
  ((descElems el).filter (fun pn => isButton pn.2)).find?
    (fun pn => o == some (getText pn.2 anyText))

/-- Model of `setComboboxByElementText(root, elText, option, fallbackOption,
anyText)`: resolve the labelled element and its trigger button, click it
(the host renders the option list — in this static model the list is
whatever buttons the subtree holds), scan for the option, and on a miss
either fail when the option already equals the fallback (the guard against
a recursion loop) or retry once with the fallback; clicks have no modelled
effect on the tree. -/
def setComboboxByElementText (doc : Dom) (rootP : DPath) (elText : OStr)
    (opt fallbackOption : OStr) (anyText : Bool) : Bool × Dom :=
  match getNode doc rootP with
  | none => (false, doc)
  | some r =>
    match getElementByText r elText with
    | none => (false, doc)
    | some (_, el) =>
      match firstDescWith el isButton with
      | none => (false, doc)
      | some _ =>
        match findComboOpt el anyText opt with
        | some _ => (true, doc)
        | none =>
          if opt = fallbackOption then (false, doc)
          else
            setComboboxByElementText doc rootP elText fallbackOption
              fallbackOption anyText
termination_by (if opt = fallbackOption then 0 else 1)
decreasing_by simp_all

/-- The number of option-scan attempts `setComboboxByElementText` performs,
mirroring its recursion structure. -/
def setComboboxCalls (doc : Dom) (rootP : DPath) (elText : OStr)
    (opt fallbackOption : OStr) (anyText : Bool) : Nat :=
  match getNode doc rootP with
  | none => 1
  | some r =>
    match getElementByText r elText with
    | none => 1
    | some (_, el) =>
      match firstDescWith el isButton with
      | none => 1
      | some _ =>
        match findComboOpt el anyText opt with
        | some _ => 1
        | none =>
          if opt = fallbackOption then 1
          else
            1 + setComboboxCalls doc rootP elText fallbackOption
              fallbackOption anyText
termination_by (if opt = fallbackOption then 0 else 1)
decreasing_by simp_all

/-- First element at or after index `j` in a sibling list, with its index. -/
def firstElemFromAux : Nat → List Dom → Option (Nat × Dom)
  | _, [] => none
  | j, c :: cs =>
    if isElemNode c then some (j, c) else firstElemFromAux (j + 1) cs

/-- Model of `titleDiv.nextElementSibling` for the node at path `p`. -/
def nextElemSibling (doc : Dom) (p : DPath) : Option (DPath × Dom) :=
  match p.getLast? with
  | none => none
  | some i =>
    match getNode doc p.dropLast with
    | some (.elem _ _ _ _ _ cs) =>
      match firstElemFromAux (i + 1) (cs.drop (i + 1)) with
      | some (j, c) => some (p.dropLast ++ [j], c)
      | none => none
    | _ => none

/-- Model of `getContentByDivTitle(title)`: the first `div` in the document
whose whole trimmed `textContent` equals the title, then its next element
sibling, accepted only if that sibling contains an `input`. -/
def getContentByDivTitle (doc : Dom) (title : String) : Option (DPath × Dom) :=
  match ((descElems doc).filter (fun pn => isDiv pn.2)).find?
      (fun pn => jsTrim (textContent pn.2) == title) with
  | none => none
  | some (p, _) =>
    match nextElemSibling doc p with
    | none => none
    | some (p2, c) =>
      if (firstDescWith c isInput).isSome then some (p2, c) else none

/-- Model of `setAllCheckboxesToValue(root, value)`: set the `checked`
property of every checkbox in the region (the list is collected once, as
`querySelectorAll` does). -/
def setAllCheckboxesToValue (doc : Dom) (rootP : DPath) (value : JSVal) : Dom :=
  match getNode doc rootP with
  | none => doc
  | some r =>
    (querySelectorAllP r isCheckbox).foldl
      (fun d pn =>
        setNode d (rootP ++ pn.1) (fun n => setReactChecked n value)) doc

/-- Model of `setAllRadiosToValue(root, value)`: for every radio in the
region whose `value` equals the requested one, click it, and if it still is
not checked use the React-style setter (dead code in this model, kept for
fidelity). -/
def setAllRadiosToValue (doc : Dom) (rootP : DPath) (value : String) : Dom :=
  match getNode doc rootP with
  | none => doc
  | some r =>
    (querySelectorAllP r isRadio).foldl
      (fun d pn =>
        match getNode d (rootP ++ pn.1) with
        | some radio =>
          if domAttrVal radio == value then
            let d1 := setNode d (rootP ++ pn.1) radioClick
            match getNode d1 (rootP ++ pn.1) with
            | some radio1 =>
              if domChecked radio1 then d1
              else setNode d1 (rootP ++ pn.1) setReactSelect
            | none => d1
          else d
        | none => d) doc

/-! ## The fill passes -/

/-- Model of `fillInfo(player)`: resolve the Info region and set the name,
both shirt names, age, stronger foot, reputation, nationality (with the
`"- Others"` fallback), height and weight (via `parseInt`), and the playing
style combobox (with the `"N/A"` fallback and full-subtree option text). -/
def fillInfo (player : Player) (doc : Dom) : Dom :=
  match getContentByDivTitle doc "Info" with
  | none => doc
  | some (rootP, _) =>
    let d1 := (setInputByElementText doc rootP (some "Player Name")
      (jsOfOptStr (List.lookup "Name" player.basic))).2
    let d2 := (setInputByElementText d1 rootP (some "Shirt name (club)")
      (jsOfOptStr (List.lookup "Shirt Name" player.basic))).2
    let d3 := (setInputByElementText d2 rootP
      (some "Shirt name (national team)")
      (jsOfOptStr (List.lookup "Shirt Name" player.basic))).2
    let d4 := (setInputByElementText d3 rootP (some "Age")
      (jsOfOptStr (List.lookup "Age" player.basic))).2
    let d5 := (setSelectByElementText d4 rootP (some "Stronger Foot")
      (List.lookup "Foot" player.basic)).2
    let d6 := (setInputByElementText d5 rootP (some "Reputation")
      (jsOfOptStr (List.lookup "Reputation" player.basic))).2
    let d7 := (setComboboxByElementText d6 rootP (some "Country/Region")
      (List.lookup "Nationality" player.basic) (some "- Others") false).2
    let d8 := (setInputByElementText d7 rootP (some "Height (cm)")
      (JSVal.num (jsParseInt (List.lookup "Height" player.appearance)))).2
    let d9 := (setInputByElementText d8 rootP (some "Weight (kg)")
      (JSVal.num (jsParseInt (List.lookup "Weight" player.appearance)))).2
    (setComboboxByElementText d9 rootP (some "Playing Style")
      (some player.playingStyle) (some "N/A") true).2

/-- Model of `fillPosition(player)`: resolve the Overall & Position region,
set the registered-position text field, bulk-set every radio of value `"C"`,
promote the registered position to `"A"`, then apply every parsed
position/tier pair. -/
def fillPosition (player : Player) (doc : Dom) : Dom :=
  match getContentByDivTitle doc "Overall & Position" with
  | none => doc
  | some (rootP, _) =>
    let d1 := (setInputByElementText doc rootP (some "Registered Position")
      (jsOfOptStr (List.lookup "Registered Position" player.basic))).2
    let d2 := setAllRadiosToValue d1 rootP "C"
    let d3 := (setSelectByElementText d2 rootP
      (List.lookup "Registered Position" player.basic) (some "A")).2
    player.positions.foldl
      (fun d kv => (setSelectByElementText d rootP (some kv.1) (some kv.2)).2)
      d3

/-- Model of `fillAbility(stats)`: write every stat as a text value into the
control labelled by the stat's key, no bulk clear. -/
def fillAbility (stats : List (String × JSVal)) (doc : Dom) : Dom :=
  match getContentByDivTitle doc "Ability" with
  | none => doc
  | some (rootP, _) =>
    stats.foldl
      (fun d kv => (setInputByElementText d rootP (some kv.1) kv.2).2) doc

/-- Model of `fillPlayerSkills(playerSkills)`: bulk-clear every checkbox in
the Player Skills region, then set the listed ones. -/
def fillPlayerSkills (playerSkills : List (String × Bool)) (doc : Dom) : Dom :=
  match getContentByDivTitle doc "Player Skills" with
  | none => doc
  | some (rootP, _) =>
    let d1 := setAllCheckboxesToValue doc rootP (JSVal.bool false)
    playerSkills.foldl
      (fun d kv =>
        (setCheckboxByElementText d rootP (some kv.1) (JSVal.bool kv.2)).2) d1

/-- Model of `fillCOMPlayingstyles(comPlayingStyles)`: bulk-clear every
checkbox in the COM Playing Styles region, then set the listed ones. -/
def fillCOMPlayingstyles (com : List (String × Bool)) (doc : Dom) : Dom :=
  match getContentByDivTitle doc "COM Playing Styles" with
  | none => doc
  | some (rootP, _) =>
    let d1 := setAllCheckboxesToValue doc rootP (JSVal.bool false)
    com.foldl
      (fun d kv =>
        (setCheckboxByElementText d rootP (some kv.1) (JSVal.bool kv.2)).2) d1

/-- The full synchronization of a parsed record onto the document: the five
section passes of `setPlayerData`, in order. -/
def applyPlayerData (player : Player) (doc : Dom) : Dom :=
  fillCOMPlayingstyles player.comPlayingStyles
    (fillPlayerSkills player.skills
      (fillAbility player.stats
        (fillPosition player
          (fillInfo player doc))))

/-- Model of `setPlayerData` after the clipboard read: parse the text and
apply the record (the clipboard boundary itself is host-environment code). -/
def setPlayerData (text : String) (doc : Dom) : Dom :=
  applyPlayerData (parsePlayerText text) doc

/-! ## Basic engine lemmas -/

theorem getNode_nil (d : Dom) : getNode d [] = some d := by cases d <;> rfl

theorem setNode_nil (d : Dom) (f : Dom → Dom) : setNode d [] f = f d := by
  cases d <;> rfl

theorem getNode_setNode_self : ∀ (p : DPath) (d : Dom) (f : Dom → Dom),
    getNode (setNode d p f) p = (getNode d p).map f
  | [], d, f => by rw [setNode_nil, getNode_nil, getNode_nil]; rfl
  | i :: p, d, f => by
    cases d with
    | textNode s => rfl
    | elem t ty av pv chk cs =>
      cases hc : cs[i]? with
      | none => simp [setNode, getNode, hc]
      | some c =>
        have hlt : i < cs.length := by
          by_contra hc2
          rw [List.getElem?_eq_none (by omega)] at hc
          exact absurd hc (by simp)
        simp only [setNode, getNode, hc]
        rw [List.getElem?_set_eq_of_lt _ hlt]
        exact getNode_setNode_self p c f

theorem setComboboxByElementText_doc (doc : Dom) (rootP : DPath)
    (elText opt fb : OStr) (anyText : Bool) :
    (setComboboxByElementText doc rootP elText opt fb anyText).2 = doc := by
  unfold setComboboxByElementText
  cases hr : getNode doc rootP with
  | none => rfl
  | some r =>
    cases hel : getElementByText r elText with
    | none => simp [hel]
    | some pel =>
      cases hbt : firstDescWith pel.2 isButton with
      | none => simp [hel, hbt]
      | some b =>
        cases hopt : findComboOpt pel.2 anyText opt with
        | some o => simp [hel, hbt, hopt]
        | none =>
          by_cases he : opt = fb
          · subst he
            simp [hel, hbt, hopt]
          · simp only [hel, hbt, hopt]
            rw [if_neg he]
            unfold setComboboxByElementText
            simp only [hr, hel, hbt]
            cases hopt2 : findComboOpt pel.2 anyText fb with
            | some o2 => simp [hopt2]
            | none => simp [hopt2]

/-! ## Claim C1: combobox fallback and termination -/

/-- Claim C1: when the requested option is absent from the rendered option
list, the combobox operation performs exactly one retry with the designated
fallback (two option scans in total; a single scan when the requested
option already equals the fallback), and it returns failure whenever the
fallback option is itself absent — the self-fallback guard prevents any
further recursion, so the operation always terminates (termination is also
what justifies the Lean definition's well-founded recursion). -/
theorem claimC1_combobox_fallback (doc : Dom) (rootP : DPath)
    (elText opt fb : OStr) (anyText : Bool) (r el btn : Dom) (pe bp : DPath)
    (hr : getNode doc rootP = some r)
    (hel : getElementByText r elText = some (pe, el))
    (hbtn : firstDescWith el isButton = some (bp, btn))
    (hmiss : findComboOpt el anyText opt = none) :
    setComboboxCalls doc rootP elText opt fb anyText =
      (if opt = fb then 1 else 2) ∧
    (findComboOpt el anyText fb = none →
      setComboboxByElementText doc rootP elText opt fb anyText =
        (false, doc)) := by
  constructor
  · unfold setComboboxCalls
    simp only [hr, hel, hbtn, hmiss]
    by_cases he : opt = fb
    · simp [he]
    · rw [if_neg he, if_neg he]
      unfold setComboboxCalls
      simp only [hr, hel, hbtn]
      cases hfb : findComboOpt el anyText fb with
      | some o => rfl
      | none => simp
  · intro hfbm
    unfold setComboboxByElementText
    simp only [hr, hel, hbtn, hmiss]
    by_cases he : opt = fb
    · simp [he]
    · rw [if_neg he]
      unfold setComboboxByElementText
      simp only [hr, hel, hbtn, hfbm]
      simp

/-- The combobox trigger button of the claim C1 witness tree. -/
def c1Trigger : Dom := .elem "button" "" "" "" false []

/-- The labelled element of the claim C1 witness tree. -/
def c1Div : Dom :=
  .elem "div" "" "" "" false [.textNode "Country/Region", c1Trigger]

/-- The claim C1 witness document. -/
def c1Doc : Dom := .elem "body" "" "" "" false [c1Div]

/-- Witness for claim C1: on a tree whose option list contains neither the
requested option nor the fallback, the operation scans twice and fails. -/
theorem claimC1_witness :
    setComboboxCalls c1Doc [] (some "Country/Region") (some "France")
      (some "- Others") false = 2 ∧
    setComboboxByElementText c1Doc [] (some "Country/Region") (some "France")
      (some "- Others") false = (false, c1Doc) := by
  have h := claimC1_combobox_fallback c1Doc [] (some "Country/Region")
    (some "France") (some "- Others") false c1Doc c1Div c1Trigger [0] [1]
    rfl rfl rfl rfl
  refine ⟨?_, h.2 rfl⟩
  rw [h.1]
  decide

/-! ## Claim C7: a record lacking "Age" -/

/-- The path of the input control labelled `elText` inside the section
titled `title`, resolved exactly the way the Info pass resolves it. -/
def inputPathFor (doc : Dom) (title : String) (elText : OStr) : Option DPath :=
  match getContentByDivTitle doc title with
  | none => none
  | some (rootP, r) =>
    match getElementByText r elText with
    | none => none
    | some (pe, el) =>
      match firstDescWith el isInput with
      | none => none
      | some (pin, _) => some (rootP ++ pe ++ pin)

/-- A record with a name but no age. -/
def cexPlayer7 : Player :=
  { basic := [("Name", "X")], appearance := [], stats := [], skills := [],
    comPlayingStyles := [], positions := [], playingStyle := "" }

/-- A document whose "Age"-labelled control is nested inside the
"Player Name"-labelled element, so both labels resolve to the same input. -/
def cexDoc7 : Dom :=
  .elem "body" "" "" "" false
    [ .elem "div" "" "" "" false [.textNode "Info"],
      .elem "div" "" "" "" false
        [ .elem "div" "" "" "" false
            [ .textNode "Player Name",
              .elem "div" "" "" "" false
                [ .textNode "Age",
                  .elem "input" "text" "" "" false [] ] ] ] ]

/-- Claim C7, counterexample: the claim says that for every record lacking
`"Age"` and every UI tree the Info pass leaves the age control's state
unchanged.  In a tree where the element labelled `"Age"` is nested inside
the element labelled `"Player Name"`, both labels resolve to the same
input, and the Player Name write changes the age control even though the
record has no `"Age"` key. -/
theorem claimC7_counterexample :
    List.lookup "Age" cexPlayer7.basic = none ∧
    inputPathFor cexDoc7 "Info" (some "Age") = some [1, 0, 1, 1] ∧
    (getNode cexDoc7 [1, 0, 1, 1]).map domPropVal = some "" ∧
    (getNode (fillInfo cexPlayer7 cexDoc7) [1, 0, 1, 1]).map domPropVal =
      some "X" := by
  refine ⟨rfl, rfl, rfl, ?_⟩
  unfold fillInfo
  simp only [setComboboxByElementText_doc]
  rfl

/-- Claim C7, amended: for every record whose basic mapping lacks `"Age"`
and every UI tree, the Age text-set operation itself returns failure and
performs no write (the guard rejects the `undefined` value before any
lookup), and, all operations being total functions, the pass completes
without an error; the age control can still be touched by other labels'
writes when the tree aliases controls across labels, as the counterexample
shows. -/
theorem claimC7_amended (player : Player) (doc : Dom) (rootP : DPath)
    (h : List.lookup "Age" player.basic = none) :
    setInputByElementText doc rootP (some "Age")
      (jsOfOptStr (List.lookup "Age" player.basic)) = (false, doc) := by
  rw [h]
  rfl

/-- Witness for the amended claim C7 on the empty record and a minimal
tree. -/
theorem claimC7_witness :
    setInputByElementText (Dom.textNode "") [] (some "Age")
      (jsOfOptStr (List.lookup "Age" initPlayer.basic)) =
      (false, Dom.textNode "") :=
  claimC7_amended initPlayer (Dom.textNode "") [] rfl

/-! ## Claim C9: a record lacking "Height"/"Weight" writes "NaN" -/

/-- Claim C9: when the appearance mapping lacks the key (`"Height"` or
`"Weight"`), `parseInt(undefined)` yields `NaN`, which is not caught by the
null/undefined skip guard, so the Info pass's height/weight step still
resolves the control and writes the string `"NaN"` into it, returning
success — the control does not retain its prior value. -/
theorem claimC9_nan_write (player : Player) (doc r el inp : Dom)
    (rootP pe pin : DPath) (key : String) (elText : OStr)
    (hmiss : List.lookup key player.appearance = none)
    (hr : getNode doc rootP = some r)
    (hel : getElementByText r elText = some (pe, el))
    (hin : firstDescWith el isInput = some (pin, inp))
    (hnode : getNode doc (rootP ++ pe ++ pin) = some inp)
    (helem : isElemNode inp = true) :
    jsParseInt (List.lookup key player.appearance) = JSNum.nan ∧
    jsIsNullish (JSVal.num JSNum.nan) = false ∧
    setInputByElementText doc rootP elText
      (JSVal.num (jsParseInt (List.lookup key player.appearance))) =
      (true, setNode doc (rootP ++ pe ++ pin)
        (fun n => setReactValue n (JSVal.num JSNum.nan))) ∧
    (getNode (setInputByElementText doc rootP elText
      (JSVal.num (jsParseInt (List.lookup key player.appearance)))).2
        (rootP ++ pe ++ pin)).map domPropVal = some "NaN" := by
  have hnan : jsParseInt (List.lookup key player.appearance) = JSNum.nan := by
    rw [hmiss]
    rfl
  have hset : setInputByElementText doc rootP elText
      (JSVal.num (jsParseInt (List.lookup key player.appearance))) =
      (true, setNode doc (rootP ++ pe ++ pin)
        (fun n => setReactValue n (JSVal.num JSNum.nan))) := by
    rw [hnan]
    unfold setInputByElementText
    simp only [hr, hel, hin]
    rfl
  refine ⟨hnan, rfl, hset, ?_⟩
  rw [hset]
  simp only [getNode_setNode_self, hnode, Option.map_map]
  cases inp with
  | textNode s => exact absurd helem (by simp [isElemNode])
  | elem t ty av pv chk cs => rfl

/-- The claim C9 witness document: a single labelled height control. -/
def cexDoc9 : Dom :=
  .elem "div" "" "" "" false
    [ .elem "label" "" "" "" false
        [ .textNode "Height (cm)",
          .elem "input" "text" "" "172" false [] ] ]

/-- Witness for claim C9: on a record with an empty appearance mapping the
height step writes `"NaN"` over the control's prior value `"172"`. -/
theorem claimC9_witness :
    jsParseInt (List.lookup "Height" initPlayer.appearance) = JSNum.nan ∧
    jsIsNullish (JSVal.num JSNum.nan) = false ∧
    setInputByElementText cexDoc9 [] (some "Height (cm)")
      (JSVal.num (jsParseInt (List.lookup "Height" initPlayer.appearance))) =
      (true, setNode cexDoc9 [0, 1]
        (fun n => setReactValue n (JSVal.num JSNum.nan))) ∧
    (getNode (setInputByElementText cexDoc9 [] (some "Height (cm)")
      (JSVal.num (jsParseInt (List.lookup "Height" initPlayer.appearance)))).2
        [0, 1]).map domPropVal = some "NaN" :=
  claimC9_nan_write initPlayer cexDoc9 cexDoc9
    (.elem "label" "" "" "" false
      [ .textNode "Height (cm)", .elem "input" "text" "" "172" false [] ])
    (.elem "input" "text" "" "172" false [])
    [] [0] [1] "Height" (some "Height (cm)") rfl rfl rfl rfl rfl rfl

/-! ## Claim C8: idempotence of the full synchronization

The proof factors every pass into a list of property writes whose targets
are determined by the static structure of the tree alone: the skeleton
(`skel`, the tree with the mutable `value`/`checked` properties erased)
determines every lookup, every write sets a property to a constant, and a
list of constant writes applied twice equals the list applied once. -/

mutual

/-- The static skeleton of a node: the mutable `value` and `checked`
properties erased. -/
def skel : Dom → Dom
  | .textNode s => .textNode s
  | .elem t ty av _ _ cs => .elem t ty av "" false (skelList cs)

/-- Skeleton of a child list. -/
def skelList : List Dom → List Dom
  | [] => []
  | c :: cs => skel c :: skelList cs

end

/-- A single property write. -/
inductive DWrite where
  | wval (p : DPath) (s : String)
  | wchk (p : DPath) (b : Bool)

/-- Write a constant into the `value` property of a node. -/
def domSetVal (s : String) : Dom → Dom
  | .textNode c => .textNode c
  | .elem t ty av _ chk cs => .elem t ty av s chk cs

/-- Write a constant into the `checked` property of a node. -/
def domSetChk (b : Bool) : Dom → Dom
  | .textNode c => .textNode c
  | .elem t ty av pv _ cs => .elem t ty av pv b cs

/-- Apply one write to the document. -/
def applyW (d : Dom) : DWrite → Dom
  | .wval p s => setNode d p (domSetVal s)
  | .wchk p b => setNode d p (domSetChk b)

/-- Apply a list of writes left to right. -/
def run (W : List DWrite) (d : Dom) : Dom := W.foldl applyW d

/-- Read a node through a root-level projection. -/
def readWith {β : Type} (g : Dom → Option β) (d : Dom) (p : DPath) :
    Option β :=
  (getNode d p).bind g

/-- The `value` property of an element. -/
def valReader : Dom → Option String
  | .textNode _ => none
  | .elem _ _ _ pv _ _ => some pv

/-- The `checked` property of an element. -/
def chkReader : Dom → Option Bool
  | .textNode _ => none
  | .elem _ _ _ _ chk _ => some chk

/-- The `value` property at a path. -/
def readVal (d : Dom) (p : DPath) : Option String := readWith valReader d p

/-- The `checked` property at a path. -/
def readChk (d : Dom) (p : DPath) : Option Bool := readWith chkReader d p

theorem skelList_eq_map : ∀ cs : List Dom, skelList cs = cs.map skel
  | [] => rfl
  | c :: cs => by rw [skelList, List.map_cons, skelList_eq_map cs]

theorem getNode_skel : ∀ (p : DPath) (d : Dom),
    getNode (skel d) p = (getNode d p).map skel
  | [], d => by cases d <;> rfl
  | i :: p, d => by
    cases d with
    | textNode s => rfl
    | elem t ty av pv chk cs =>
      show getNode (.elem t ty av "" false (skelList cs)) (i :: p) = _
      simp only [getNode, skelList_eq_map, List.getElem?_map]
      cases hc : cs[i]? with
      | none => rfl
      | some c => exact getNode_skel p c

theorem setReactValue_eq (n : Dom) (v : JSVal) :
    setReactValue n v = domSetVal (jsValToString v) n := by cases n <;> rfl

theorem setReactChecked_eq (n : Dom) (v : JSVal) :
    setReactChecked n v = domSetChk (jsTruthy v) n := by cases n <;> rfl

theorem setReactSelect_eq (n : Dom) : setReactSelect n = domSetChk true n := by
  cases n <;> rfl

theorem radioClick_eq (n : Dom) : radioClick n = domSetChk true n := by
  cases n <;> rfl

theorem skel_domSetVal (s : String) (n : Dom) : skel (domSetVal s n) = skel n := by
  cases n <;> rfl

theorem skel_domSetChk (b : Bool) (n : Dom) : skel (domSetChk b n) = skel n := by
  cases n <;> rfl

theorem set_self_of_getElem? {α : Type} :
    ∀ (l : List α) (i : Nat) (a : α), l[i]? = some a → l.set i a = l
  | [], _, _, h => by simp at h
  | x :: l, 0, a, h => by
    simp only [List.getElem?_cons_zero, Option.some.injEq] at h
    simp [h]
  | x :: l, i + 1, a, h => by
    simp only [List.getElem?_cons_succ] at h
    simp [set_self_of_getElem? l i a h]

theorem skel_setNode (f : Dom → Dom) (hf : ∀ n, skel (f n) = skel n) :
    ∀ (p : DPath) (d : Dom), skel (setNode d p f) = skel d
  | [], d => by rw [setNode_nil, hf]
  | i :: p, d => by
    cases d with
    | textNode s => rfl
    | elem t ty av pv chk cs =>
      cases hc : cs[i]? with
      | none => simp [setNode, hc]
      | some c =>
        simp only [setNode, hc, skel, skelList_eq_map, List.map_set]
        rw [skel_setNode f hf p c]
        rw [set_self_of_getElem? (cs.map skel) i (skel c)
          (by rw [List.getElem?_map, hc]; rfl)]

theorem skel_applyW (d : Dom) (w : DWrite) : skel (applyW d w) = skel d := by
  cases w with
  | wval p s => exact skel_setNode _ (skel_domSetVal s) p d
  | wchk p b => exact skel_setNode _ (skel_domSetChk b) p d

theorem skel_run : ∀ (W : List DWrite) (d : Dom), skel (run W d) = skel d
  | [], _ => rfl
  | w :: W, d => by
    show skel (run W (applyW d w)) = skel d
    rw [skel_run W (applyW d w), skel_applyW]

theorem run_append (W1 W2 : List DWrite) (d : Dom) :
    run (W1 ++ W2) d = run W2 (run W1 d) := by
  unfold run
  rw [List.foldl_append]

theorem getNode_elem_cons (t ty av pv : String) (chk : Bool) (cs : List Dom)
    (i : Nat) (p : DPath) :
    getNode (.elem t ty av pv chk cs) (i :: p) =
      match cs[i]? with
      | some c => getNode c p
      | none => none := rfl

theorem readVal_setNode_val (d : Dom) (p : DPath) (s : String) :
    readVal (setNode d p (domSetVal s)) p = (readVal d p).map (fun _ => s) := by
  unfold readVal readWith
  rw [getNode_setNode_self]
  cases getNode d p with
  | none => rfl
  | some n => cases n <;> rfl

theorem readChk_setNode_val (d : Dom) (p : DPath) (s : String) :
    readChk (setNode d p (domSetVal s)) p = readChk d p := by
  unfold readChk readWith
  rw [getNode_setNode_self]
  cases getNode d p with
  | none => rfl
  | some n => cases n <;> rfl

theorem readChk_setNode_chk (d : Dom) (p : DPath) (b : Bool) :
    readChk (setNode d p (domSetChk b)) p = (readChk d p).map (fun _ => b) := by
  unfold readChk readWith
  rw [getNode_setNode_self]
  cases getNode d p with
  | none => rfl
  | some n => cases n <;> rfl

theorem readVal_setNode_chk (d : Dom) (p : DPath) (b : Bool) :
    readVal (setNode d p (domSetChk b)) p = readVal d p := by
  unfold readVal readWith
  rw [getNode_setNode_self]
  cases getNode d p with
  | none => rfl
  | some n => cases n <;> rfl

theorem readWith_setNode_ne {β : Type} (g : Dom → Option β)
    (hg : ∀ t ty av pv chk cs cs2,
      g (.elem t ty av pv chk cs) = g (.elem t ty av pv chk cs2))
    (f : Dom → Dom)
    (hfe : ∀ t ty av pv chk cs, ∃ pv2 chk2,
      f (.elem t ty av pv chk cs) = .elem t ty av pv2 chk2 cs)
    (hft : ∀ s, f (.textNode s) = .textNode s) :
    ∀ (q p : DPath) (d : Dom), p ≠ q →
      readWith g (setNode d q f) p = readWith g d p
  | [], p, d, hne => by
    rw [setNode_nil]
    cases d with
    | textNode s => rw [hft]
    | elem t ty av pv chk cs =>
      obtain ⟨pv2, chk2, hfd⟩ := hfe t ty av pv chk cs
      rw [hfd]
      cases p with
      | nil => exact absurd rfl hne
      | cons i p2 => rfl
  | j :: q2, p, d, hne => by
    cases d with
    | textNode s => rfl
    | elem t ty av pv chk cs =>
      cases hc : cs[j]? with
      | none => simp [setNode, hc]
      | some c =>
        have hlt : j < cs.length := by
          by_contra hc2
          rw [List.getElem?_eq_none (by omega)] at hc
          exact absurd hc (by simp)
        simp only [setNode, hc]
        cases p with
        | nil => exact hg t ty av pv chk _ cs
        | cons i p2 =>
          unfold readWith
          rw [getNode_elem_cons, getNode_elem_cons]
          by_cases hij : i = j
          · subst hij
            rw [List.getElem?_set_eq_of_lt _ hlt, hc]
            have hpq : p2 ≠ q2 := fun he => hne (by rw [he])
            exact readWith_setNode_ne g hg f hfe hft q2 p2 c hpq
          · rw [List.getElem?_set_ne (fun he => hij he.symm)]

theorem dom_induction (P : Dom → Prop) (ht : ∀ s, P (.textNode s))
    (he : ∀ t ty av pv chk cs, (∀ c ∈ cs, P c) → P (.elem t ty av pv chk cs)) :
    ∀ d, P d
  | .textNode s => ht s
  | .elem t ty av pv chk cs =>
    he t ty av pv chk cs (fun c hc =>
      have : sizeOf c < sizeOf (Dom.elem t ty av pv chk cs) := by
        have h1 := List.sizeOf_lt_of_mem hc
        simp only [Dom.elem.sizeOf_spec]
        omega
      dom_induction P ht he c)
termination_by d => sizeOf d

/-- Extensionality data: a node is determined by its skeleton together with
all its `value` and `checked` reads. -/
def ExtProp (d1 : Dom) : Prop :=
  ∀ d2, skel d1 = skel d2 → (∀ p, readVal d1 p = readVal d2 p) →
    (∀ p, readChk d1 p = readChk d2 p) → d1 = d2

theorem readVal_elem_cons (t ty av pv : String) (chk : Bool) (cs : List Dom)
    (i : Nat) (p : DPath) :
    readVal (.elem t ty av pv chk cs) (i :: p) =
      match cs[i]? with
      | some c => readVal c p
      | none => none := by
  unfold readVal readWith
  rw [getNode_elem_cons]
  cases cs[i]? <;> rfl

theorem readChk_elem_cons (t ty av pv : String) (chk : Bool) (cs : List Dom)
    (i : Nat) (p : DPath) :
    readChk (.elem t ty av pv chk cs) (i :: p) =
      match cs[i]? with
      | some c => readChk c p
      | none => none := by
  unfold readChk readWith
  rw [getNode_elem_cons]
  cases cs[i]? <;> rfl

theorem dom_ext_list : ∀ (cs cs2 : List Dom), (∀ c ∈ cs, ExtProp c) →
    skelList cs = skelList cs2 →
    (∀ (i : Nat) (p : DPath), (match cs[i]? with
      | some c => readVal c p
      | none => (none : Option String)) =
      (match cs2[i]? with | some c => readVal c p | none => none)) →
    (∀ (i : Nat) (p : DPath), (match cs[i]? with
      | some c => readChk c p
      | none => (none : Option Bool)) =
      (match cs2[i]? with | some c => readChk c p | none => none)) →
    cs = cs2
  | [], [], _, _, _, _ => rfl
  | [], _ :: _, _, hs, _, _ => by simp [skelList] at hs
  | _ :: _, [], _, hs, _, _ => by simp [skelList] at hs
  | c :: cs, c2 :: cs2, hP, hs, hv, hchk => by
    rw [skelList, skelList] at hs
    injection hs with hs1 hs2
    have hc : c = c2 :=
      hP c (List.mem_cons_self _ _) c2 hs1
        (fun p => by have h := hv 0 p; simpa using h)
        (fun p => by have h := hchk 0 p; simpa using h)
    rw [hc, dom_ext_list cs cs2 (fun x hx => hP x (List.mem_cons_of_mem _ hx))
      hs2
      (fun i p => by have h := hv (i + 1) p; simpa using h)
      (fun i p => by have h := hchk (i + 1) p; simpa using h)]

theorem dom_ext : ∀ d1, ExtProp d1 := by
  refine dom_induction ExtProp ?_ ?_
  · intro s d2 hs _ _
    cases d2 with
    | textNode s2 =>
      simp only [skel] at hs
      injection hs with h
      rw [h]
    | elem t ty av pv chk cs => simp [skel] at hs
  · intro t ty av pv chk cs hIH d2 hs hv hchk
    cases d2 with
    | textNode s2 => simp [skel] at hs
    | elem t2 ty2 av2 pv2 chk2 cs2 =>
      simp only [skel] at hs
      injection hs with h1 h2 h3 h4 h5 h6
      have hpv : pv = pv2 := by
        have h := hv []
        unfold readVal readWith at h
        rw [getNode_nil, getNode_nil] at h
        simpa [valReader] using h
      have hchk0 : chk = chk2 := by
        have h := hchk []
        unfold readChk readWith at h
        rw [getNode_nil, getNode_nil] at h
        simpa [chkReader] using h
      have hcs : cs = cs2 := by
        refine dom_ext_list cs cs2 hIH h6 ?_ ?_
        · intro i p
          have h := hv (i :: p)
          rw [readVal_elem_cons, readVal_elem_cons] at h
          exact h
        · intro i p
          have h := hchk (i :: p)
          rw [readChk_elem_cons, readChk_elem_cons] at h
          exact h
      rw [h1, h2, h3, hpv, hchk0, hcs]

theorem readVal_skel (d : Dom) (p : DPath) :
    readVal (skel d) p = (readVal d p).map (fun _ => "") := by
  unfold readVal readWith
  rw [getNode_skel]
  cases getNode d p with
  | none => rfl
  | some n => cases n <;> rfl

theorem readChk_skel (d : Dom) (p : DPath) :
    readChk (skel d) p = (readChk d p).map (fun _ => false) := by
  unfold readChk readWith
  rw [getNode_skel]
  cases getNode d p with
  | none => rfl
  | some n => cases n <;> rfl

theorem option_map_const_eq {α β γ : Type} (o1 : Option α) (o2 : Option β)
    (c : γ) (h : o1.isSome = o2.isSome) :
    o1.map (fun _ => c) = o2.map (fun _ => c) := by
  cases o1 <;> cases o2 <;> simp_all

theorem readVal_isSome_of_skel {d1 d2 : Dom} (hs : skel d1 = skel d2)
    (p : DPath) : (readVal d1 p).isSome = (readVal d2 p).isSome := by
  have h1 := readVal_skel d1 p
  have h2 := readVal_skel d2 p
  rw [hs, h2] at h1
  have h3 := congrArg Option.isSome h1
  simpa using h3.symm

theorem readChk_isSome_of_skel {d1 d2 : Dom} (hs : skel d1 = skel d2)
    (p : DPath) : (readChk d1 p).isSome = (readChk d2 p).isSome := by
  have h1 := readChk_skel d1 p
  have h2 := readChk_skel d2 p
  rw [hs, h2] at h1
  have h3 := congrArg Option.isSome h1
  simpa using h3.symm

theorem readVal_applyW_wval_self (d : Dom) (q : DPath) (s : String) :
    readVal (applyW d (.wval q s)) q = (readVal d q).map (fun _ => s) :=
  readVal_setNode_val d q s

theorem readVal_applyW_wval_ne (d : Dom) (q : DPath) (s : String) (p : DPath)
    (h : p ≠ q) : readVal (applyW d (.wval q s)) p = readVal d p :=
  readWith_setNode_ne valReader (fun _ _ _ _ _ _ _ => rfl) (domSetVal s)
    (fun t ty av pv chk cs => ⟨s, chk, rfl⟩) (fun _ => rfl) q p d h

theorem readVal_applyW_wchk (d : Dom) (q : DPath) (b : Bool) (p : DPath) :
    readVal (applyW d (.wchk q b)) p = readVal d p := by
  by_cases h : p = q
  · subst h
    exact readVal_setNode_chk d p b
  · exact readWith_setNode_ne valReader (fun _ _ _ _ _ _ _ => rfl)
      (domSetChk b) (fun t ty av pv chk cs => ⟨pv, b, rfl⟩) (fun _ => rfl)
      q p d h

theorem readChk_applyW_wchk_self (d : Dom) (q : DPath) (b : Bool) :
    readChk (applyW d (.wchk q b)) q = (readChk d q).map (fun _ => b) :=
  readChk_setNode_chk d q b

theorem readChk_applyW_wchk_ne (d : Dom) (q : DPath) (b : Bool) (p : DPath)
    (h : p ≠ q) : readChk (applyW d (.wchk q b)) p = readChk d p :=
  readWith_setNode_ne chkReader (fun _ _ _ _ _ _ _ => rfl) (domSetChk b)
    (fun t ty av pv chk cs => ⟨pv, b, rfl⟩) (fun _ => rfl) q p d h

theorem readChk_applyW_wval (d : Dom) (q : DPath) (s : String) (p : DPath) :
    readChk (applyW d (.wval q s)) p = readChk d p := by
  by_cases h : p = q
  · subst h
    exact readChk_setNode_val d p s
  · exact readWith_setNode_ne chkReader (fun _ _ _ _ _ _ _ => rfl)
      (domSetVal s) (fun t ty av pv chk cs => ⟨s, chk, rfl⟩) (fun _ => rfl)
      q p d h

/-- The value property at `p` is touched by some write of the list. -/
def wvalIn (W : List DWrite) (p : DPath) : Prop := ∃ s, DWrite.wval p s ∈ W

/-- The checked property at `p` is touched by some write of the list. -/
def wchkIn (W : List DWrite) (p : DPath) : Prop := ∃ b, DWrite.wchk p b ∈ W

/-- Two documents agree on skeleton and on every property a write list does
not touch. -/
def Agrees (W : List DWrite) (d1 d2 : Dom) : Prop :=
  skel d1 = skel d2 ∧
  (∀ p, ¬ wvalIn W p → readVal d1 p = readVal d2 p) ∧
  (∀ p, ¬ wchkIn W p → readChk d1 p = readChk d2 p)

theorem run_agrees : ∀ (W : List DWrite) (d : Dom), Agrees W d (run W d)
  | [], _ => ⟨rfl, fun _ _ => rfl, fun _ _ => rfl⟩
  | w :: W, d => by
    obtain ⟨hs, hv, hc⟩ := run_agrees W (applyW d w)
    have hrun : run (w :: W) d = run W (applyW d w) := rfl
    refine ⟨?_, ?_, ?_⟩
    · rw [hrun, skel_run, skel_applyW]
    · intro p hp
      have hp2 : ¬ wvalIn W p := fun hin =>
        hp ⟨hin.choose, List.mem_cons_of_mem _ hin.choose_spec⟩
      have h1 : readVal (applyW d w) p = readVal d p := by
        cases w with
        | wval q s =>
          have hq : p ≠ q := fun he =>
            hp ⟨s, by rw [he]; exact List.mem_cons_self _ _⟩
          exact readVal_applyW_wval_ne d q s p hq
        | wchk q b => exact readVal_applyW_wchk d q b p
      rw [hrun, ← hv p hp2, h1]
    · intro p hp
      have hp2 : ¬ wchkIn W p := fun hin =>
        hp ⟨hin.choose, List.mem_cons_of_mem _ hin.choose_spec⟩
      have h1 : readChk (applyW d w) p = readChk d p := by
        cases w with
        | wval q s => exact readChk_applyW_wval d q s p
        | wchk q b =>
          have hq : p ≠ q := fun he =>
            hp ⟨b, by rw [he]; exact List.mem_cons_self _ _⟩
          exact readChk_applyW_wchk_ne d q b p hq
      rw [hrun, ← hc p hp2, h1]

theorem agrees_run_eq : ∀ (W : List DWrite) (d1 d2 : Dom),
    Agrees W d1 d2 → run W d1 = run W d2
  | [], d1, d2, ⟨hs, hv, hc⟩ =>
    dom_ext d1 d2 hs
      (fun p => hv p (fun hin => by cases hin.choose_spec))
      (fun p => hc p (fun hin => by cases hin.choose_spec))
  | w :: W, d1, d2, ⟨hs, hv, hc⟩ => by
    have hrun1 : run (w :: W) d1 = run W (applyW d1 w) := rfl
    have hrun2 : run (w :: W) d2 = run W (applyW d2 w) := rfl
    rw [hrun1, hrun2]
    apply agrees_run_eq W
    refine ⟨by rw [skel_applyW, skel_applyW, hs], ?_, ?_⟩
    · intro p hp
      cases w with
      | wval q s =>
        by_cases hpq : p = q
        · subst hpq
          rw [readVal_applyW_wval_self, readVal_applyW_wval_self]
          exact option_map_const_eq _ _ s (readVal_isSome_of_skel hs p)
        · rw [readVal_applyW_wval_ne d1 q s p hpq,
            readVal_applyW_wval_ne d2 q s p hpq]
          refine hv p (fun hin => ?_)
          obtain ⟨s2, hm⟩ := hin
          rcases List.mem_cons.mp hm with he | hm2
          · rw [DWrite.wval.injEq] at he
            exact hpq he.1
          · exact hp ⟨s2, hm2⟩
      | wchk q b =>
        rw [readVal_applyW_wchk, readVal_applyW_wchk]
        refine hv p (fun hin => ?_)
        obtain ⟨s2, hm⟩ := hin
        rcases List.mem_cons.mp hm with he | hm2
        · cases he
        · exact hp ⟨s2, hm2⟩
    · intro p hp
      cases w with
      | wchk q b =>
        by_cases hpq : p = q
        · subst hpq
          rw [readChk_applyW_wchk_self, readChk_applyW_wchk_self]
          exact option_map_const_eq _ _ b (readChk_isSome_of_skel hs p)
        · rw [readChk_applyW_wchk_ne d1 q b p hpq,
            readChk_applyW_wchk_ne d2 q b p hpq]
          refine hc p (fun hin => ?_)
          obtain ⟨b2, hm⟩ := hin
          rcases List.mem_cons.mp hm with he | hm2
          · rw [DWrite.wchk.injEq] at he
            exact hpq he.1
          · exact hp ⟨b2, hm2⟩
      | wval q s =>
        rw [readChk_applyW_wval, readChk_applyW_wval]
        refine hc p (fun hin => ?_)
        obtain ⟨b2, hm⟩ := hin
        rcases List.mem_cons.mp hm with he | hm2
        · cases he
        · exact hp ⟨b2, hm2⟩

theorem run_run (W : List DWrite) (d : Dom) : run W (run W d) = run W d := by
  have h := run_agrees W d
  exact agrees_run_eq W (run W d) d
    ⟨h.1.symm, fun p hp => (h.2.1 p hp).symm, fun p hp => (h.2.2 p hp).symm⟩

/-- An operation is good when, at every document, it acts as a list of
property writes computed from the skeleton alone. -/
def GoodOp (f : Dom → Dom) : Prop :=
  ∀ d, ∃ W, ∀ d2, skel d2 = skel d → f d2 = run W d2

theorem goodOp_comp (f g : Dom → Dom) (hf : GoodOp f) (hg : GoodOp g) :
    GoodOp (fun d => g (f d)) := by
  intro d
  obtain ⟨Wf, hWf⟩ := hf d
  obtain ⟨Wg, hWg⟩ := hg (f d)
  refine ⟨Wf ++ Wg, fun d2 hd2 => ?_⟩
  have h1 : f d2 = run Wf d2 := hWf d2 hd2
  have hsk : skel (f d2) = skel (f d) := by
    rw [hWf d2 hd2, hWf d rfl, skel_run, skel_run, hd2]
  show g (f d2) = run (Wf ++ Wg) d2
  rw [hWg (f d2) hsk, h1, ← run_append]

theorem goodOp_idem (f : Dom → Dom) (hf : GoodOp f) (d : Dom) :
    f (f d) = f d := by
  obtain ⟨W, hW⟩ := hf d
  have h1 : f d = run W d := hW d rfl
  have hsk : skel (f d) = skel d := by rw [h1, skel_run]
  rw [hW (f d) hsk, h1, run_run]

theorem goodOp_foldl {α : Type} (step : α → Dom → Dom)
    (hstep : ∀ x, GoodOp (step x)) :
    ∀ xs : List α, GoodOp (fun d => xs.foldl (fun d x => step x d) d)
  | [] => fun _ => ⟨[], fun _ _ => rfl⟩
  | x :: xs =>
    goodOp_comp (step x) (fun d => xs.foldl (fun d x => step x d) d)
      (hstep x) (goodOp_foldl step hstep xs)

/-! ### Skeleton invariance of the lookups -/

theorem filter_map_comm {α β : Type} (f : α → β) (p : β → Bool) :
    ∀ l : List α, (l.map f).filter p = (l.filter (fun a => p (f a))).map f
  | [] => rfl
  | a :: l => by
    simp only [List.map_cons, List.filter_cons]
    cases hp : p (f a) <;> simp [filter_map_comm f p l]

theorem find?_map_comm {α β : Type} (f : α → β) (p : β → Bool) :
    ∀ l : List α, (l.map f).find? p = ((l.find? (fun a => p (f a))).map f)
  | [] => rfl
  | a :: l => by
    simp only [List.map_cons, List.find?_cons]
    cases hp : p (f a) <;> simp [hp, find?_map_comm f p l]

theorem domTag_skel (n : Dom) : domTag (skel n) = domTag n := by cases n <;> rfl

theorem domIType_skel (n : Dom) : domIType (skel n) = domIType n := by
  cases n <;> rfl

theorem domAttrVal_skel (n : Dom) : domAttrVal (skel n) = domAttrVal n := by
  cases n <;> rfl

theorem isElemNode_skel (n : Dom) : isElemNode (skel n) = isElemNode n := by
  cases n <;> rfl

theorem isDiv_skel (n : Dom) : isDiv (skel n) = isDiv n := by
  unfold isDiv; rw [domTag_skel]

theorem isLabelOrDiv_skel (n : Dom) : isLabelOrDiv (skel n) = isLabelOrDiv n := by
  unfold isLabelOrDiv; rw [domTag_skel]

theorem isButton_skel (n : Dom) : isButton (skel n) = isButton n := by
  unfold isButton; rw [domTag_skel]

theorem isInput_skel (n : Dom) : isInput (skel n) = isInput n := by
  unfold isInput; rw [domTag_skel]

theorem isCheckbox_skel (n : Dom) : isCheckbox (skel n) = isCheckbox n := by
  unfold isCheckbox; rw [isInput_skel, domIType_skel]

theorem isRadio_skel (n : Dom) : isRadio (skel n) = isRadio n := by
  unfold isRadio; rw [isInput_skel, domIType_skel]

theorem isRadioWithValue_skel (v : String) (n : Dom) :
    isRadioWithValue v (skel n) = isRadioWithValue v n := by
  unfold isRadioWithValue; rw [isRadio_skel, domAttrVal_skel]

mutual

theorem textContent_skel : ∀ d : Dom, textContent (skel d) = textContent d
  | .textNode s => rfl
  | .elem t ty av pv chk cs => textContentList_skel cs

theorem textContentList_skel :
    ∀ cs : List Dom, textContentList (skelList cs) = textContentList cs
  | [] => rfl
  | c :: cs => by
    show textContent (skel c) ++ textContentList (skelList cs) = _
    rw [textContent_skel c, textContentList_skel cs]
    simp [textContentList]

end

theorem getTextList_skel :
    ∀ (cs : List Dom) (inc : Bool),
      getTextList (skelList cs) inc = getTextList cs inc
  | [], _ => rfl
  | .textNode s :: cs, inc => by
    show getTextList (.textNode s :: skelList cs) inc = _
    unfold getTextList
    rw [getTextList_skel cs inc]
  | .elem t ty av pv chk cs0 :: cs, inc => by
    show getTextList (.elem t ty av "" false (skelList cs0) :: skelList cs) inc = _
    unfold getTextList
    rw [getTextList_skel cs inc,
      show textContent (.elem t ty av "" false (skelList cs0)) =
        textContent (.elem t ty av pv chk cs0) from textContentList_skel cs0]

theorem getText_skel (el : Dom) (inc : Bool) :
    getText (skel el) inc = getText el inc := by
  cases el with
  | textNode s => rfl
  | elem t ty av pv chk cs =>
    show getTextList (skelList cs) inc = getTextList cs inc
    exact getTextList_skel cs inc

mutual

theorem descElems_skel : ∀ d : Dom,
    descElems (skel d) = (descElems d).map (fun pn => (pn.1, skel pn.2))
  | .textNode s => rfl
  | .elem t ty av pv chk cs => descElemsList_skel 0 cs

theorem descElemsList_skel : ∀ (i : Nat) (cs : List Dom),
    descElemsList i (skelList cs) =
      (descElemsList i cs).map (fun pn => (pn.1, skel pn.2))
  | _, [] => rfl
  | i, .textNode s :: cs => by
    show descElemsList (i + 1) (skelList cs) = _
    rw [descElemsList_skel (i + 1) cs]
    simp [descElemsList]
  | i, .elem t ty av pv chk cs0 :: cs => by
    show ([i], Dom.elem t ty av "" false (skelList cs0)) ::
        ((descElems (.elem t ty av "" false (skelList cs0))).map
          (fun pn => (i :: pn.1, pn.2)) ++
          descElemsList (i + 1) (skelList cs)) = _
    rw [descElemsList_skel (i + 1) cs,
      show descElems (Dom.elem t ty av "" false (skelList cs0)) =
        descElems (skel (.elem t ty av pv chk cs0)) from rfl,
      descElems_skel (.elem t ty av pv chk cs0)]
    simp [descElemsList, skel, Function.comp]

end

theorem setNode_fcongr (d : Dom) (q : DPath) (f g : Dom → Dom)
    (h : ∀ n, f n = g n) : setNode d q f = setNode d q g := by
  rw [funext h]

theorem setNode_of_getNode_none :
    ∀ (q : DPath) (d : Dom) (f : Dom → Dom),
      getNode d q = none → setNode d q f = d
  | [], d, f, h => by rw [getNode_nil] at h; exact absurd h (by simp)
  | _ :: _, .textNode _, _, _ => rfl
  | i :: p, .elem t ty av pv chk cs, f, h => by
    cases hc : cs[i]? with
    | none => simp [setNode, hc]
    | some c =>
      have hcn : getNode c p = none := by
        rw [getNode_elem_cons] at h
        simpa [hc] using h
      simp only [setNode, hc]
      rw [setNode_of_getNode_none p c f hcn, set_self_of_getElem? cs i c hc]

theorem node_map_skel_cases {o1 o2 : Option Dom}
    (h : o1.map skel = o2.map skel) :
    (o1 = none ∧ o2 = none) ∨
      ∃ n1 n2, o1 = some n1 ∧ o2 = some n2 ∧ skel n1 = skel n2 := by
  cases o1 with
  | none =>
    cases o2 with
    | none => exact Or.inl ⟨rfl, rfl⟩
    | some y => simp at h
  | some x =>
    cases o2 with
    | none => simp at h
    | some y =>
      simp only [Option.map_some', Option.some.injEq] at h
      exact Or.inr ⟨x, y, rfl, rfl, h⟩

theorem pair_map_eq_cases {o1 o2 : Option (DPath × Dom)}
    (h : o1.map (fun pn => (pn.1, skel pn.2)) =
      o2.map (fun pn => (pn.1, skel pn.2))) :
    (o1 = none ∧ o2 = none) ∨
      ∃ p n1 n2, o1 = some (p, n1) ∧ o2 = some (p, n2) ∧ skel n1 = skel n2 := by
  cases o1 with
  | none =>
    cases o2 with
    | none => exact Or.inl ⟨rfl, rfl⟩
    | some y => simp at h
  | some x =>
    cases o2 with
    | none => simp at h
    | some y =>
      obtain ⟨p1, n1⟩ := x
      obtain ⟨p2, n2⟩ := y
      simp only [Option.map_some', Option.some.injEq, Prod.mk.injEq] at h
      exact Or.inr ⟨p1, n1, n2, rfl, by rw [h.1], h.2⟩

theorem map_path_eq {β : Type} {l1 l2 : List (DPath × Dom)}
    (h : l1.map (fun pn => (pn.1, skel pn.2)) =
      l2.map (fun pn => (pn.1, skel pn.2)))
    (g : DPath → β) :
    l1.map (fun pn => g pn.1) = l2.map (fun pn => g pn.1) := by
  have h1 := congrArg (List.map (fun pn : DPath × Dom => g pn.1)) h
  simpa [List.map_map, Function.comp] using h1

theorem drop_map_helper {α β : Type} (f : α → β) :
    ∀ (n : Nat) (l : List α), (l.map f).drop n = (l.drop n).map f
  | 0, _ => rfl
  | _ + 1, [] => rfl
  | n + 1, _ :: l => drop_map_helper f n l

theorem querySelectorAllP_skel (pred : Dom → Bool)
    (hpred : ∀ n, pred (skel n) = pred n) (r : Dom) :
    querySelectorAllP (skel r) pred =
      (querySelectorAllP r pred).map (fun pn => (pn.1, skel pn.2)) := by
  unfold querySelectorAllP
  rw [descElems_skel, filter_map_comm]
  simp only [hpred]

theorem firstDescWith_skel (pred : Dom → Bool)
    (hpred : ∀ n, pred (skel n) = pred n) (r : Dom) :
    firstDescWith (skel r) pred =
      (firstDescWith r pred).map (fun pn => (pn.1, skel pn.2)) := by
  unfold firstDescWith
  rw [descElems_skel, find?_map_comm]
  simp only [hpred]

theorem getElementByText_skel (root : Dom) (text : OStr) :
    getElementByText (skel root) text =
      (getElementByText root text).map (fun pn => (pn.1, skel pn.2)) := by
  unfold getElementByText
  rw [descElems_skel, filter_map_comm, find?_map_comm]
  simp only [isLabelOrDiv_skel, getText_skel]

theorem findComboOpt_skel (el : Dom) (anyText : Bool) (o : OStr) :
    findComboOpt (skel el) anyText o =
      (findComboOpt el anyText o).map (fun pn => (pn.1, skel pn.2)) := by
  unfold findComboOpt
  rw [descElems_skel, filter_map_comm, find?_map_comm]
  simp only [isButton_skel, getText_skel]

theorem firstElemFromAux_map_skel :
    ∀ (j : Nat) (l : List Dom),
      firstElemFromAux j (l.map skel) =
        (firstElemFromAux j l).map (fun jc => (jc.1, skel jc.2))
  | _, [] => rfl
  | j, c :: l => by
    rw [List.map_cons]
    simp only [firstElemFromAux, isElemNode_skel]
    cases hc : isElemNode c
    · simp [hc, firstElemFromAux_map_skel (j + 1) l]
    · simp [hc]

theorem nextElemSibling_skel (doc : Dom) (p : DPath) :
    nextElemSibling (skel doc) p =
      (nextElemSibling doc p).map (fun pn => (pn.1, skel pn.2)) := by
  unfold nextElemSibling
  cases hl : p.getLast? with
  | none => rfl
  | some i =>
    rw [getNode_skel]
    cases hn : getNode doc p.dropLast with
    | none => rfl
    | some n =>
      cases n with
      | textNode s => rfl
      | elem t ty av pv chk cs =>
        show (match firstElemFromAux (i + 1) ((skelList cs).drop (i + 1)) with
          | some (j, c) => some (p.dropLast ++ [j], c)
          | none => none) =
          Option.map (fun pn => (pn.1, skel pn.2))
            (match firstElemFromAux (i + 1) (cs.drop (i + 1)) with
            | some (j, c) => some (p.dropLast ++ [j], c)
            | none => none)
        rw [skelList_eq_map, drop_map_helper, firstElemFromAux_map_skel]
        cases hfe : firstElemFromAux (i + 1) (cs.drop (i + 1)) with
        | none => rfl
        | some jc =>
          obtain ⟨j, c⟩ := jc
          rfl

theorem getContentByDivTitle_skel (doc : Dom) (title : String) :
    getContentByDivTitle (skel doc) title =
      (getContentByDivTitle doc title).map (fun pn => (pn.1, skel pn.2)) := by
  unfold getContentByDivTitle
  rw [descElems_skel, filter_map_comm, find?_map_comm]
  simp only [isDiv_skel, textContent_skel]
  cases hf : ((descElems doc).filter (fun pn => isDiv pn.2)).find?
      (fun pn => jsTrim (textContent pn.2) == title) with
  | none => rfl
  | some pn =>
    obtain ⟨p, n⟩ := pn
    show (match nextElemSibling (skel doc) p with
      | none => none
      | some (p2, c) =>
        if (firstDescWith c isInput).isSome then some (p2, c) else none) =
      Option.map (fun pn => (pn.1, skel pn.2))
        (match nextElemSibling doc p with
        | none => none
        | some (p2, c) =>
          if (firstDescWith c isInput).isSome then some (p2, c) else none)
    rw [nextElemSibling_skel]
    cases hne : nextElemSibling doc p with
    | none => rfl
    | some pc =>
      obtain ⟨p2, c⟩ := pc
      show (if (firstDescWith (skel c) isInput).isSome then some (p2, skel c)
        else none) =
        Option.map (fun pn => (pn.1, skel pn.2))
          (if (firstDescWith c isInput).isSome then some (p2, c) else none)
      rw [firstDescWith_skel isInput isInput_skel]
      cases hfd : firstDescWith c isInput with
      | none => rfl
      | some q => rfl

theorem getNode_agree {d2 d : Dom} (hs : skel d2 = skel d) (p : DPath) :
    (getNode d2 p).map skel = (getNode d p).map skel := by
  rw [← getNode_skel, ← getNode_skel, hs]

theorem lookup_resolve {d2 d : Dom} (hs : skel d2 = skel d) (rootP : DPath)
    {r : Dom} (hr : getNode d rootP = some r) :
    ∃ r2, getNode d2 rootP = some r2 ∧ skel r2 = skel r := by
  rcases node_map_skel_cases (getNode_agree hs rootP) with ⟨h1, h2⟩ |
    ⟨r2, r3, h1, h2, hsk⟩
  · rw [hr] at h2; exact absurd h2 (by simp)
  · rw [hr] at h2
    injection h2 with h2
    exact ⟨r2, h1, h2 ▸ hsk⟩

theorem lookup_resolve_none {d2 d : Dom} (hs : skel d2 = skel d) (rootP : DPath)
    (hr : getNode d rootP = none) : getNode d2 rootP = none := by
  rcases node_map_skel_cases (getNode_agree hs rootP) with ⟨h1, h2⟩ |
    ⟨r2, r3, h1, h2, hsk⟩
  · exact h1
  · rw [hr] at h2; exact absurd h2 (by simp)

/-- Transport a path-returning lookup along skeleton equality: the same path
comes out, with a skeleton-equal node. -/
theorem nat_resolve (F : Dom → Option (DPath × Dom))
    (hF : ∀ x, F (skel x) = (F x).map (fun pn => (pn.1, skel pn.2)))
    {x2 x : Dom} (hsk : skel x2 = skel x) :
    (F x = none → F x2 = none) ∧
    (∀ p n, F x = some (p, n) → ∃ n2, F x2 = some (p, n2) ∧ skel n2 = skel n) := by
  have hmap : (F x2).map (fun pn => (pn.1, skel pn.2)) =
      (F x).map (fun pn => (pn.1, skel pn.2)) := by
    rw [← hF, ← hF, hsk]
  rcases pair_map_eq_cases hmap with ⟨h1, h2⟩ | ⟨p, n1, n2, h1, h2, hsk2⟩
  · exact ⟨fun _ => h1, fun p n hx => by rw [hx] at h2; exact absurd h2 (by simp)⟩
  · constructor
    · intro hx; rw [hx] at h2; exact absurd h2 (by simp)
    · intro p3 n3 hx
      rw [hx] at h2
      injection h2 with h4
      rw [Prod.mk.injEq] at h4
      exact ⟨n1, by rw [h1, h4.1], by rw [hsk2, h4.2]⟩

theorem goodOp_setInput (rootP : DPath) (elText : OStr) (v : JSVal) :
    GoodOp (fun d => (setInputByElementText d rootP elText v).2) := by
  intro d
  cases hnull : jsIsNullish v with
  | true =>
    refine ⟨[], fun d2 _ => ?_⟩
    show (setInputByElementText d2 rootP elText v).2 = run [] d2
    simp [setInputByElementText, hnull, run]
  | false =>
    cases hr : getNode d rootP with
    | none =>
      refine ⟨[], fun d2 hs => ?_⟩
      show (setInputByElementText d2 rootP elText v).2 = run [] d2
      simp [setInputByElementText, hnull, lookup_resolve_none hs rootP hr, run]
    | some r =>
      cases hge : getElementByText r elText with
      | none =>
        refine ⟨[], fun d2 hs => ?_⟩
        obtain ⟨r2, hr2, hskr⟩ := lookup_resolve hs rootP hr
        have hge2 : getElementByText r2 elText = none :=
          (nat_resolve (fun x => getElementByText x elText)
            (fun x => getElementByText_skel x elText) hskr).1 hge
        show (setInputByElementText d2 rootP elText v).2 = run [] d2
        simp [setInputByElementText, hnull, hr2, hge2, run]
      | some peel =>
        obtain ⟨pe, el⟩ := peel
        cases hfd : firstDescWith el isInput with
        | none =>
          refine ⟨[], fun d2 hs => ?_⟩
          obtain ⟨r2, hr2, hskr⟩ := lookup_resolve hs rootP hr
          obtain ⟨el2, hge2, hske⟩ :=
            (nat_resolve (fun x => getElementByText x elText)
              (fun x => getElementByText_skel x elText) hskr).2 pe el hge
          have hfd2 : firstDescWith el2 isInput = none :=
            (nat_resolve (fun x => firstDescWith x isInput)
              (fun x => firstDescWith_skel isInput isInput_skel x) hske).1 hfd
          show (setInputByElementText d2 rootP elText v).2 = run [] d2
          simp [setInputByElementText, hnull, hr2, hge2, hfd2, run]
        | some pinn =>
          obtain ⟨pin, nx⟩ := pinn
          refine ⟨[DWrite.wval (rootP ++ pe ++ pin) (jsValToString v)],
            fun d2 hs => ?_⟩
          obtain ⟨r2, hr2, hskr⟩ := lookup_resolve hs rootP hr
          obtain ⟨el2, hge2, hske⟩ :=
            (nat_resolve (fun x => getElementByText x elText)
              (fun x => getElementByText_skel x elText) hskr).2 pe el hge
          obtain ⟨nx2, hfd2, _⟩ :=
            (nat_resolve (fun x => firstDescWith x isInput)
              (fun x => firstDescWith_skel isInput isInput_skel x) hske).2
              pin nx hfd
          show (setInputByElementText d2 rootP elText v).2 =
            run [DWrite.wval (rootP ++ pe ++ pin) (jsValToString v)] d2
          simp only [setInputByElementText, hnull, Bool.false_eq_true,
            if_false, hr2, hge2, hfd2]
          exact setNode_fcongr d2 (rootP ++ pe ++ pin) _ _
            (fun n => setReactValue_eq n v)

theorem goodOp_setCheckbox (rootP : DPath) (elText : OStr) (v : JSVal) :
    GoodOp (fun d => (setCheckboxByElementText d rootP elText v).2) := by
  intro d
  cases hnull : jsIsNullish v with
  | true =>
    refine ⟨[], fun d2 _ => ?_⟩
    show (setCheckboxByElementText d2 rootP elText v).2 = run [] d2
    simp [setCheckboxByElementText, hnull, run]
  | false =>
    cases hr : getNode d rootP with
    | none =>
      refine ⟨[], fun d2 hs => ?_⟩
      show (setCheckboxByElementText d2 rootP elText v).2 = run [] d2
      simp [setCheckboxByElementText, hnull, lookup_resolve_none hs rootP hr,
        run]
    | some r =>
      cases hge : getElementByText r elText with
      | none =>
        refine ⟨[], fun d2 hs => ?_⟩
        obtain ⟨r2, hr2, hskr⟩ := lookup_resolve hs rootP hr
        have hge2 : getElementByText r2 elText = none :=
          (nat_resolve (fun x => getElementByText x elText)
            (fun x => getElementByText_skel x elText) hskr).1 hge
        show (setCheckboxByElementText d2 rootP elText v).2 = run [] d2
        simp [setCheckboxByElementText, hnull, hr2, hge2, run]
      | some peel =>
        obtain ⟨pe, el⟩ := peel
        cases hfd : firstDescWith el isCheckbox with
        | none =>
          refine ⟨[], fun d2 hs => ?_⟩
          obtain ⟨r2, hr2, hskr⟩ := lookup_resolve hs rootP hr
          obtain ⟨el2, hge2, hske⟩ :=
            (nat_resolve (fun x => getElementByText x elText)
              (fun x => getElementByText_skel x elText) hskr).2 pe el hge
          have hfd2 : firstDescWith el2 isCheckbox = none :=
            (nat_resolve (fun x => firstDescWith x isCheckbox)
              (fun x => firstDescWith_skel isCheckbox isCheckbox_skel x)
              hske).1 hfd
          show (setCheckboxByElementText d2 rootP elText v).2 = run [] d2
          simp [setCheckboxByElementText, hnull, hr2, hge2, hfd2, run]
        | some pcbn =>
          obtain ⟨pcb, nx⟩ := pcbn
          refine ⟨[DWrite.wchk (rootP ++ pe ++ pcb) (jsTruthy v)],
            fun d2 hs => ?_⟩
          obtain ⟨r2, hr2, hskr⟩ := lookup_resolve hs rootP hr
          obtain ⟨el2, hge2, hske⟩ :=
            (nat_resolve (fun x => getElementByText x elText)
              (fun x => getElementByText_skel x elText) hskr).2 pe el hge
          obtain ⟨nx2, hfd2, _⟩ :=
            (nat_resolve (fun x => firstDescWith x isCheckbox)
              (fun x => firstDescWith_skel isCheckbox isCheckbox_skel x)
              hske).2 pcb nx hfd
          show (setCheckboxByElementText d2 rootP elText v).2 =
            run [DWrite.wchk (rootP ++ pe ++ pcb) (jsTruthy v)] d2
          simp only [setCheckboxByElementText, hnull, Bool.false_eq_true,
            if_false, hr2, hge2, hfd2]
          exact setNode_fcongr d2 (rootP ++ pe ++ pcb) _ _
            (fun n => setReactChecked_eq n v)

theorem goodOp_setSelect (rootP : DPath) (elText : OStr) (value : OStr) :
    GoodOp (fun d => (setSelectByElementText d rootP elText value).2) := by
  intro d
  cases hr : getNode d rootP with
  | none =>
    refine ⟨[], fun d2 hs => ?_⟩
    show (setSelectByElementText d2 rootP elText value).2 = run [] d2
    simp [setSelectByElementText, lookup_resolve_none hs rootP hr, run]
  | some r =>
    cases hge : getElementByText r elText with
    | none =>
      refine ⟨[], fun d2 hs => ?_⟩
      obtain ⟨r2, hr2, hskr⟩ := lookup_resolve hs rootP hr
      have hge2 : getElementByText r2 elText = none :=
        (nat_resolve (fun x => getElementByText x elText)
          (fun x => getElementByText_skel x elText) hskr).1 hge
      show (setSelectByElementText d2 rootP elText value).2 = run [] d2
      simp [setSelectByElementText, hr2, hge2, run]
    | some peel =>
      obtain ⟨pe, el⟩ := peel
      cases hfd : firstDescWith el (isRadioWithValue (ostrOrUndefined value)) with
      | none =>
        refine ⟨[], fun d2 hs => ?_⟩
        obtain ⟨r2, hr2, hskr⟩ := lookup_resolve hs rootP hr
        obtain ⟨el2, hge2, hske⟩ :=
          (nat_resolve (fun x => getElementByText x elText)
            (fun x => getElementByText_skel x elText) hskr).2 pe el hge
        have hfd2 : firstDescWith el2
            (isRadioWithValue (ostrOrUndefined value)) = none :=
          (nat_resolve
            (fun x => firstDescWith x (isRadioWithValue (ostrOrUndefined value)))
            (fun x => firstDescWith_skel _
              (isRadioWithValue_skel (ostrOrUndefined value)) x) hske).1 hfd
        show (setSelectByElementText d2 rootP elText value).2 = run [] d2
        simp [setSelectByElementText, hr2, hge2, hfd2, run]
      | some prn =>
        obtain ⟨pr, nr⟩ := prn
        cases hq : getNode d (rootP ++ pe ++ pr) with
        | none =>
          refine ⟨[], fun d2 hs => ?_⟩
          obtain ⟨r2, hr2, hskr⟩ := lookup_resolve hs rootP hr
          obtain ⟨el2, hge2, hske⟩ :=
            (nat_resolve (fun x => getElementByText x elText)
              (fun x => getElementByText_skel x elText) hskr).2 pe el hge
          obtain ⟨nr2, hfd2, _⟩ :=
            (nat_resolve
              (fun x =>
                firstDescWith x (isRadioWithValue (ostrOrUndefined value)))
              (fun x => firstDescWith_skel _
                (isRadioWithValue_skel (ostrOrUndefined value)) x) hske).2
              pr nr hfd
          have hq2 : getNode d2 (rootP ++ pe ++ pr) = none :=
            lookup_resolve_none hs _ hq
          have hd1 : setNode d2 (rootP ++ pe ++ pr) radioClick = d2 :=
            setNode_of_getNode_none _ _ _ hq2
          show (setSelectByElementText d2 rootP elText value).2 = run [] d2
          simp only [setSelectByElementText, hr2, hge2, hfd2, hd1, hq2]
          exact setNode_of_getNode_none _ _ _ hq2
        | some nrad =>
          cases nrad with
          | textNode s =>
            refine ⟨[DWrite.wchk (rootP ++ pe ++ pr) true,
              DWrite.wchk (rootP ++ pe ++ pr) true], fun d2 hs => ?_⟩
            obtain ⟨r2, hr2, hskr⟩ := lookup_resolve hs rootP hr
            obtain ⟨el2, hge2, hske⟩ :=
              (nat_resolve (fun x => getElementByText x elText)
                (fun x => getElementByText_skel x elText) hskr).2 pe el hge
            obtain ⟨nr2, hfd2, _⟩ :=
              (nat_resolve
                (fun x =>
                  firstDescWith x (isRadioWithValue (ostrOrUndefined value)))
                (fun x => firstDescWith_skel _
                  (isRadioWithValue_skel (ostrOrUndefined value)) x) hske).2
                pr nr hfd
            obtain ⟨n2, hq2, hskn⟩ := lookup_resolve hs _ hq
            cases n2 with
            | elem a b c dd e f => simp [skel] at hskn
            | textNode s2 =>
              have hgd1 : getNode
                  (setNode d2 (rootP ++ pe ++ pr) radioClick)
                  (rootP ++ pe ++ pr) = some (Dom.textNode s2) := by
                rw [getNode_setNode_self, hq2]; rfl
              show (setSelectByElementText d2 rootP elText value).2 =
                run [DWrite.wchk (rootP ++ pe ++ pr) true,
                  DWrite.wchk (rootP ++ pe ++ pr) true] d2
              simp only [setSelectByElementText, hr2, hge2, hfd2, hgd1,
                domChecked, Bool.false_eq_true, if_false]
              rw [setNode_fcongr d2 (rootP ++ pe ++ pr) radioClick
                (domSetChk true) radioClick_eq]
              exact setNode_fcongr _ (rootP ++ pe ++ pr) setReactSelect
                (domSetChk true) setReactSelect_eq
          | elem a b c dd e f =>
            refine ⟨[DWrite.wchk (rootP ++ pe ++ pr) true], fun d2 hs => ?_⟩
            obtain ⟨r2, hr2, hskr⟩ := lookup_resolve hs rootP hr
            obtain ⟨el2, hge2, hske⟩ :=
              (nat_resolve (fun x => getElementByText x elText)
                (fun x => getElementByText_skel x elText) hskr).2 pe el hge
            obtain ⟨nr2, hfd2, _⟩ :=
              (nat_resolve
                (fun x =>
                  firstDescWith x (isRadioWithValue (ostrOrUndefined value)))
                (fun x => firstDescWith_skel _
                  (isRadioWithValue_skel (ostrOrUndefined value)) x) hske).2
                pr nr hfd
            obtain ⟨n2, hq2, hskn⟩ := lookup_resolve hs _ hq
            cases n2 with
            | textNode s2 => simp [skel] at hskn
            | elem a2 b2 c2 dd2 e2 f2 =>
              have hgd1 : getNode
                  (setNode d2 (rootP ++ pe ++ pr) radioClick)
                  (rootP ++ pe ++ pr) =
                  some (Dom.elem a2 b2 c2 dd2 true f2) := by
                rw [getNode_setNode_self, hq2]; rfl
              show (setSelectByElementText d2 rootP elText value).2 =
                run [DWrite.wchk (rootP ++ pe ++ pr) true] d2
              simp only [setSelectByElementText, hr2, hge2, hfd2, hgd1,
                domChecked, if_true]
              exact setNode_fcongr d2 (rootP ++ pe ++ pr) radioClick
                (domSetChk true) radioClick_eq

theorem goodOp_setCombobox (rootP : DPath) (elText opt fb : OStr)
    (anyText : Bool) :
    GoodOp (fun d =>
      (setComboboxByElementText d rootP elText opt fb anyText).2) :=
  fun _ => ⟨[], fun d2 _ => by
    show (setComboboxByElementText d2 rootP elText opt fb anyText).2 = run [] d2
    rw [setComboboxByElementText_doc]
    rfl⟩

theorem foldl_chk_run (rootP : DPath) (value : JSVal) :
    ∀ (l : List (DPath × Dom)) (d : Dom),
      l.foldl (fun d pn => setNode d (rootP ++ pn.1)
          (fun n => setReactChecked n value)) d =
        run (l.map (fun pn => DWrite.wchk (rootP ++ pn.1) (jsTruthy value))) d
  | [], _ => rfl
  | pn :: l, d => by
    rw [List.foldl_cons, List.map_cons, foldl_chk_run rootP value l]
    show run _ _ = run _ (applyW d (DWrite.wchk (rootP ++ pn.1)
      (jsTruthy value)))
    rw [setNode_fcongr d (rootP ++ pn.1) _ _
      (fun n => setReactChecked_eq n value)]
    rfl

theorem goodOp_setAllCheckboxes (rootP : DPath) (value : JSVal) :
    GoodOp (fun d => setAllCheckboxesToValue d rootP value) := by
  intro d
  cases hr : getNode d rootP with
  | none =>
    refine ⟨[], fun d2 hs => ?_⟩
    show setAllCheckboxesToValue d2 rootP value = run [] d2
    simp [setAllCheckboxesToValue, lookup_resolve_none hs rootP hr, run]
  | some r =>
    refine ⟨(querySelectorAllP r isCheckbox).map
      (fun pn => DWrite.wchk (rootP ++ pn.1) (jsTruthy value)),
      fun d2 hs => ?_⟩
    obtain ⟨r2, hr2, hskr⟩ := lookup_resolve hs rootP hr
    have hql : (querySelectorAllP r2 isCheckbox).map
        (fun pn => (pn.1, skel pn.2)) =
        (querySelectorAllP r isCheckbox).map (fun pn => (pn.1, skel pn.2)) := by
      rw [← querySelectorAllP_skel isCheckbox isCheckbox_skel,
        ← querySelectorAllP_skel isCheckbox isCheckbox_skel, hskr]
    show setAllCheckboxesToValue d2 rootP value = _
    simp only [setAllCheckboxesToValue, hr2]
    rw [foldl_chk_run]
    congr 1
    exact map_path_eq hql
      (fun p => DWrite.wchk (rootP ++ p) (jsTruthy value))

/-- The body of the `setAllRadiosToValue` loop for one collected radio,
addressed by its absolute path. -/
def radioStep (value : String) (q : DPath) (d : Dom) : Dom :=
  match getNode d q with
  | some radio =>
    if domAttrVal radio == value then
      let d1 := setNode d q radioClick
      match getNode d1 q with
      | some radio1 =>
        if domChecked radio1 then d1 else setNode d1 q setReactSelect
      | none => d1
    else d
  | none => d

theorem setAllRadios_eq_steps (d : Dom) (rootP : DPath) (value : String) :
    setAllRadiosToValue d rootP value =
      match getNode d rootP with
      | none => d
      | some r =>
        ((querySelectorAllP r isRadio).map (fun pn => rootP ++ pn.1)).foldl
          (fun d q => radioStep value q d) d := by
  unfold setAllRadiosToValue
  cases getNode d rootP with
  | none => rfl
  | some r =>
    show List.foldl _ d (querySelectorAllP r isRadio) =
      List.foldl (fun d q => radioStep value q d) d
        ((querySelectorAllP r isRadio).map (fun pn => rootP ++ pn.1))
    rw [List.foldl_map]
    rfl

theorem goodOp_radioStep (value : String) (q : DPath) :
    GoodOp (radioStep value q) := by
  intro d
  cases hq : getNode d q with
  | none =>
    refine ⟨[], fun d2 hs => ?_⟩
    show radioStep value q d2 = run [] d2
    simp [radioStep, lookup_resolve_none hs q hq, run]
  | some radio =>
    cases hat : domAttrVal radio == value with
    | false =>
      refine ⟨[], fun d2 hs => ?_⟩
      obtain ⟨n2, hq2, hskn⟩ := lookup_resolve hs q hq
      have hav : domAttrVal n2 = domAttrVal radio := by
        rw [← domAttrVal_skel, hskn, domAttrVal_skel]
      show radioStep value q d2 = run [] d2
      simp [radioStep, hq2, hav, hat, run]
    | true =>
      cases radio with
      | textNode s =>
        refine ⟨[DWrite.wchk q true, DWrite.wchk q true], fun d2 hs => ?_⟩
        obtain ⟨n2, hq2, hskn⟩ := lookup_resolve hs q hq
        cases n2 with
        | elem a b c dd e f => simp [skel] at hskn
        | textNode s2 =>
          have hav : domAttrVal (Dom.textNode s2) =
              domAttrVal (Dom.textNode s) := by
            rw [← domAttrVal_skel, hskn, domAttrVal_skel]
          have hgd1 : getNode (setNode d2 q radioClick) q =
              some (Dom.textNode s2) := by
            rw [getNode_setNode_self, hq2]; rfl
          show radioStep value q d2 = run [DWrite.wchk q true,
            DWrite.wchk q true] d2
          simp only [radioStep, hq2, hav, hat, if_true, hgd1, domChecked,
            Bool.false_eq_true, if_false]
          rw [setNode_fcongr d2 q radioClick (domSetChk true) radioClick_eq]
          exact setNode_fcongr _ q setReactSelect (domSetChk true)
            setReactSelect_eq
      | elem a b c dd e f =>
        refine ⟨[DWrite.wchk q true], fun d2 hs => ?_⟩
        obtain ⟨n2, hq2, hskn⟩ := lookup_resolve hs q hq
        cases n2 with
        | textNode s2 => simp [skel] at hskn
        | elem a2 b2 c2 dd2 e2 f2 =>
          have hav : domAttrVal (Dom.elem a2 b2 c2 dd2 e2 f2) =
              domAttrVal (Dom.elem a b c dd e f) := by
            rw [← domAttrVal_skel, hskn, domAttrVal_skel]
          have hgd1 : getNode (setNode d2 q radioClick) q =
              some (Dom.elem a2 b2 c2 dd2 true f2) := by
            rw [getNode_setNode_self, hq2]; rfl
          show radioStep value q d2 = run [DWrite.wchk q true] d2
          simp only [radioStep, hq2, hav, hat, if_true, hgd1, domChecked]
          exact setNode_fcongr d2 q radioClick (domSetChk true) radioClick_eq

theorem goodOp_setAllRadios (rootP : DPath) (value : String) :
    GoodOp (fun d => setAllRadiosToValue d rootP value) := by
  intro d
  cases hr : getNode d rootP with
  | none =>
    refine ⟨[], fun d2 hs => ?_⟩
    show setAllRadiosToValue d2 rootP value = run [] d2
    rw [setAllRadios_eq_steps]
    simp [lookup_resolve_none hs rootP hr, run]
  | some r =>
    obtain ⟨W, hW⟩ := goodOp_foldl (fun q d => radioStep value q d)
      (fun q => goodOp_radioStep value q)
      ((querySelectorAllP r isRadio).map (fun pn => rootP ++ pn.1)) d
    refine ⟨W, fun d2 hs => ?_⟩
    obtain ⟨r2, hr2, hskr⟩ := lookup_resolve hs rootP hr
    have hql : (querySelectorAllP r2 isRadio).map
        (fun pn => (pn.1, skel pn.2)) =
        (querySelectorAllP r isRadio).map (fun pn => (pn.1, skel pn.2)) := by
      rw [← querySelectorAllP_skel isRadio isRadio_skel,
        ← querySelectorAllP_skel isRadio isRadio_skel, hskr]
    show setAllRadiosToValue d2 rootP value = run W d2
    rw [setAllRadios_eq_steps]
    simp only [hr2]
    rw [map_path_eq hql (fun p => rootP ++ p)]
    exact hW d2 hs

/-- The body of `fillInfo` once the Info region is resolved to `rootP`. -/
def infoBody (player : Player) (rootP : DPath) (doc : Dom) : Dom :=
  let d1 := (setInputByElementText doc rootP (some "Player Name")
    (jsOfOptStr (List.lookup "Name" player.basic))).2
  let d2 := (setInputByElementText d1 rootP (some "Shirt name (club)")
    (jsOfOptStr (List.lookup "Shirt Name" player.basic))).2
  let d3 := (setInputByElementText d2 rootP
    (some "Shirt name (national team)")
    (jsOfOptStr (List.lookup "Shirt Name" player.basic))).2
  let d4 := (setInputByElementText d3 rootP (some "Age")
    (jsOfOptStr (List.lookup "Age" player.basic))).2
  let d5 := (setSelectByElementText d4 rootP (some "Stronger Foot")
    (List.lookup "Foot" player.basic)).2
  let d6 := (setInputByElementText d5 rootP (some "Reputation")
    (jsOfOptStr (List.lookup "Reputation" player.basic))).2
  let d7 := (setComboboxByElementText d6 rootP (some "Country/Region")
    (List.lookup "Nationality" player.basic) (some "- Others") false).2
  let d8 := (setInputByElementText d7 rootP (some "Height (cm)")
    (JSVal.num (jsParseInt (List.lookup "Height" player.appearance)))).2
  let d9 := (setInputByElementText d8 rootP (some "Weight (kg)")
    (JSVal.num (jsParseInt (List.lookup "Weight" player.appearance)))).2
  (setComboboxByElementText d9 rootP (some "Playing Style")
    (some player.playingStyle) (some "N/A") true).2

theorem fillInfo_eq (player : Player) (d : Dom) :
    fillInfo player d = match getContentByDivTitle d "Info" with
      | none => d
      | some pr => infoBody player pr.1 d := by
  unfold fillInfo
  cases getContentByDivTitle d "Info" with
  | none => rfl
  | some pr =>
    obtain ⟨rootP, c⟩ := pr
    rfl

theorem goodOp_infoBody (player : Player) (rootP : DPath) :
    GoodOp (infoBody player rootP) := by
  have h1 := goodOp_setInput rootP (some "Player Name")
    (jsOfOptStr (List.lookup "Name" player.basic))
  have h2 := goodOp_setInput rootP (some "Shirt name (club)")
    (jsOfOptStr (List.lookup "Shirt Name" player.basic))
  have h3 := goodOp_setInput rootP (some "Shirt name (national team)")
    (jsOfOptStr (List.lookup "Shirt Name" player.basic))
  have h4 := goodOp_setInput rootP (some "Age")
    (jsOfOptStr (List.lookup "Age" player.basic))
  have h5 := goodOp_setSelect rootP (some "Stronger Foot")
    (List.lookup "Foot" player.basic)
  have h6 := goodOp_setInput rootP (some "Reputation")
    (jsOfOptStr (List.lookup "Reputation" player.basic))
  have h7 := goodOp_setCombobox rootP (some "Country/Region")
    (List.lookup "Nationality" player.basic) (some "- Others") false
  have h8 := goodOp_setInput rootP (some "Height (cm)")
    (JSVal.num (jsParseInt (List.lookup "Height" player.appearance)))
  have h9 := goodOp_setInput rootP (some "Weight (kg)")
    (JSVal.num (jsParseInt (List.lookup "Weight" player.appearance)))
  have h10 := goodOp_setCombobox rootP (some "Playing Style")
    (some player.playingStyle) (some "N/A") true
  have g2 := goodOp_comp _ _ h1 h2
  have g3 := goodOp_comp _ _ g2 h3
  have g4 := goodOp_comp _ _ g3 h4
  have g5 := goodOp_comp _ _ g4 h5
  have g6 := goodOp_comp _ _ g5 h6
  have g7 := goodOp_comp _ _ g6 h7
  have g8 := goodOp_comp _ _ g7 h8
  have g9 := goodOp_comp _ _ g8 h9
  have g10 := goodOp_comp _ _ g9 h10
  exact g10

theorem goodOp_fillInfo (player : Player) : GoodOp (fillInfo player) := by
  intro d
  cases hg : getContentByDivTitle d "Info" with
  | none =>
    refine ⟨[], fun d2 hs => ?_⟩
    have hg2 : getContentByDivTitle d2 "Info" = none :=
      (nat_resolve (fun x => getContentByDivTitle x "Info")
        (fun x => getContentByDivTitle_skel x "Info") hs).1 hg
    rw [fillInfo_eq, hg2]
    rfl
  | some pr =>
    obtain ⟨rootP, c⟩ := pr
    obtain ⟨W, hW⟩ := goodOp_infoBody player rootP d
    refine ⟨W, fun d2 hs => ?_⟩
    obtain ⟨c2, hg2, _⟩ :=
      (nat_resolve (fun x => getContentByDivTitle x "Info")
        (fun x => getContentByDivTitle_skel x "Info") hs).2 rootP c hg
    rw [fillInfo_eq, hg2]
    exact hW d2 hs

/-- The body of `fillPosition` once the region is resolved to `rootP`. -/
def positionBody (player : Player) (rootP : DPath) (doc : Dom) : Dom :=
  let d1 := (setInputByElementText doc rootP (some "Registered Position")
    (jsOfOptStr (List.lookup "Registered Position" player.basic))).2
  let d2 := setAllRadiosToValue d1 rootP "C"
  let d3 := (setSelectByElementText d2 rootP
    (List.lookup "Registered Position" player.basic) (some "A")).2
  player.positions.foldl
    (fun d kv => (setSelectByElementText d rootP (some kv.1) (some kv.2)).2)
    d3

theorem fillPosition_eq (player : Player) (d : Dom) :
    fillPosition player d =
      match getContentByDivTitle d "Overall & Position" with
      | none => d
      | some pr => positionBody player pr.1 d := by
  unfold fillPosition
  cases getContentByDivTitle d "Overall & Position" with
  | none => rfl
  | some pr =>
    obtain ⟨rootP, c⟩ := pr
    rfl

theorem goodOp_positionBody (player : Player) (rootP : DPath) :
    GoodOp (positionBody player rootP) := by
  have h1 := goodOp_setInput rootP (some "Registered Position")
    (jsOfOptStr (List.lookup "Registered Position" player.basic))
  have h2 := goodOp_setAllRadios rootP "C"
  have h3 := goodOp_setSelect rootP
    (List.lookup "Registered Position" player.basic) (some "A")
  have h4 := goodOp_foldl
    (fun (kv : String × String) d =>
      (setSelectByElementText d rootP (some kv.1) (some kv.2)).2)
    (fun kv => goodOp_setSelect rootP (some kv.1) (some kv.2))
    player.positions
  have g2 := goodOp_comp _ _ h1 h2
  have g3 := goodOp_comp _ _ g2 h3
  have g4 := goodOp_comp _ _ g3 h4
  exact g4

theorem goodOp_fillPosition (player : Player) : GoodOp (fillPosition player) := by
  intro d
  cases hg : getContentByDivTitle d "Overall & Position" with
  | none =>
    refine ⟨[], fun d2 hs => ?_⟩
    have hg2 : getContentByDivTitle d2 "Overall & Position" = none :=
      (nat_resolve (fun x => getContentByDivTitle x "Overall & Position")
        (fun x => getContentByDivTitle_skel x "Overall & Position") hs).1 hg
    rw [fillPosition_eq, hg2]
    rfl
  | some pr =>
    obtain ⟨rootP, c⟩ := pr
    obtain ⟨W, hW⟩ := goodOp_positionBody player rootP d
    refine ⟨W, fun d2 hs => ?_⟩
    obtain ⟨c2, hg2, _⟩ :=
      (nat_resolve (fun x => getContentByDivTitle x "Overall & Position")
        (fun x => getContentByDivTitle_skel x "Overall & Position") hs).2
        rootP c hg
    rw [fillPosition_eq, hg2]
    exact hW d2 hs

theorem goodOp_fillAbility (stats : List (String × JSVal)) :
    GoodOp (fillAbility stats) := by
  intro d
  cases hg : getContentByDivTitle d "Ability" with
  | none =>
    refine ⟨[], fun d2 hs => ?_⟩
    have hg2 : getContentByDivTitle d2 "Ability" = none :=
      (nat_resolve (fun x => getContentByDivTitle x "Ability")
        (fun x => getContentByDivTitle_skel x "Ability") hs).1 hg
    show fillAbility stats d2 = run [] d2
    unfold fillAbility
    rw [hg2]
    rfl
  | some pr =>
    obtain ⟨rootP, c⟩ := pr
    obtain ⟨W, hW⟩ := goodOp_foldl
      (fun (kv : String × JSVal) d =>
        (setInputByElementText d rootP (some kv.1) kv.2).2)
      (fun kv => goodOp_setInput rootP (some kv.1) kv.2) stats d
    refine ⟨W, fun d2 hs => ?_⟩
    obtain ⟨c2, hg2, _⟩ :=
      (nat_resolve (fun x => getContentByDivTitle x "Ability")
        (fun x => getContentByDivTitle_skel x "Ability") hs).2 rootP c hg
    show fillAbility stats d2 = run W d2
    unfold fillAbility
    rw [hg2]
    exact hW d2 hs

/-- The body of `fillPlayerSkills` once the region is resolved. -/
def skillsBody (skills : List (String × Bool)) (rootP : DPath)
    (doc : Dom) : Dom :=
  let d1 := setAllCheckboxesToValue doc rootP (JSVal.bool false)
  skills.foldl
    (fun d kv =>
      (setCheckboxByElementText d rootP (some kv.1) (JSVal.bool kv.2)).2) d1

theorem goodOp_skillsBody (skills : List (String × Bool)) (rootP : DPath) :
    GoodOp (skillsBody skills rootP) := by
  have h1 := goodOp_setAllCheckboxes rootP (JSVal.bool false)
  have h2 := goodOp_foldl
    (fun (kv : String × Bool) d =>
      (setCheckboxByElementText d rootP (some kv.1) (JSVal.bool kv.2)).2)
    (fun kv => goodOp_setCheckbox rootP (some kv.1) (JSVal.bool kv.2)) skills
  have g := goodOp_comp _ _ h1 h2
  exact g

theorem fillPlayerSkills_eq (skills : List (String × Bool)) (d : Dom) :
    fillPlayerSkills skills d =
      match getContentByDivTitle d "Player Skills" with
      | none => d
      | some pr => skillsBody skills pr.1 d := by
  unfold fillPlayerSkills
  cases getContentByDivTitle d "Player Skills" with
  | none => rfl
  | some pr =>
    obtain ⟨rootP, c⟩ := pr
    rfl

theorem goodOp_fillPlayerSkills (skills : List (String × Bool)) :
    GoodOp (fillPlayerSkills skills) := by
  intro d
  cases hg : getContentByDivTitle d "Player Skills" with
  | none =>
    refine ⟨[], fun d2 hs => ?_⟩
    have hg2 : getContentByDivTitle d2 "Player Skills" = none :=
      (nat_resolve (fun x => getContentByDivTitle x "Player Skills")
        (fun x => getContentByDivTitle_skel x "Player Skills") hs).1 hg
    rw [fillPlayerSkills_eq, hg2]
    rfl
  | some pr =>
    obtain ⟨rootP, c⟩ := pr
    obtain ⟨W, hW⟩ := goodOp_skillsBody skills rootP d
    refine ⟨W, fun d2 hs => ?_⟩
    obtain ⟨c2, hg2, _⟩ :=
      (nat_resolve (fun x => getContentByDivTitle x "Player Skills")
        (fun x => getContentByDivTitle_skel x "Player Skills") hs).2
        rootP c hg
    rw [fillPlayerSkills_eq, hg2]
    exact hW d2 hs

theorem fillCOMPlayingstyles_eq (com : List (String × Bool)) (d : Dom) :
    fillCOMPlayingstyles com d =
      match getContentByDivTitle d "COM Playing Styles" with
      | none => d
      | some pr => skillsBody com pr.1 d := by
  unfold fillCOMPlayingstyles
  cases getContentByDivTitle d "COM Playing Styles" with
  | none => rfl
  | some pr =>
    obtain ⟨rootP, c⟩ := pr
    rfl

theorem goodOp_fillCOM (com : List (String × Bool)) :
    GoodOp (fillCOMPlayingstyles com) := by
  intro d
  cases hg : getContentByDivTitle d "COM Playing Styles" with
  | none =>
    refine ⟨[], fun d2 hs => ?_⟩
    have hg2 : getContentByDivTitle d2 "COM Playing Styles" = none :=
      (nat_resolve (fun x => getContentByDivTitle x "COM Playing Styles")
        (fun x => getContentByDivTitle_skel x "COM Playing Styles") hs).1 hg
    rw [fillCOMPlayingstyles_eq, hg2]
    rfl
  | some pr =>
    obtain ⟨rootP, c⟩ := pr
    obtain ⟨W, hW⟩ := goodOp_skillsBody com rootP d
    refine ⟨W, fun d2 hs => ?_⟩
    obtain ⟨c2, hg2, _⟩ :=
      (nat_resolve (fun x => getContentByDivTitle x "COM Playing Styles")
        (fun x => getContentByDivTitle_skel x "COM Playing Styles") hs).2
        rootP c hg
    rw [fillCOMPlayingstyles_eq, hg2]
    exact hW d2 hs

theorem goodOp_applyPlayerData (player : Player) :
    GoodOp (applyPlayerData player) := by
  have h1 := goodOp_fillInfo player
  have h2 := goodOp_fillPosition player
  have h3 := goodOp_fillAbility player.stats
  have h4 := goodOp_fillPlayerSkills player.skills
  have h5 := goodOp_fillCOM player.comPlayingStyles
  have g2 := goodOp_comp _ _ h1 h2
  have g3 := goodOp_comp _ _ g2 h3
  have g4 := goodOp_comp _ _ g3 h4
  have g5 := goodOp_comp _ _ g4 h5
  exact g5

theorem applyPlayerData_idem (player : Player) (doc : Dom) :
    applyPlayerData player (applyPlayerData player doc) =
      applyPlayerData player doc :=
  goodOp_idem _ (goodOp_applyPlayerData player) doc

/-- C8: for every clipboard text and every UI tree, running the full
synchronization (`setPlayerData`: the Info, Position, Ability, Skills and
COM-styles passes in order) twice in succession on a tree that does not
change in between yields exactly the same final control states as running
it once. -/
theorem claimC8_idempotent (text : String) (doc : Dom) :
    setPlayerData text (setPlayerData text doc) = setPlayerData text doc := by
  unfold setPlayerData
  exact applyPlayerData_idem (parsePlayerText text) doc

/-! ## The older revision's nationality fallback (src/unnamed/part_000) -/

/-- Selector `label` (the older revision's `getLabelByText` searches only
`label` elements). -/
def isLabel (n : Dom) : Bool := domTag n == "label"

/-- Body of `firstDirectText(el)` from the older revision: walk `childNodes`
(in this model every child is a text or element node) and return the first
trimmed `textContent` that is non-empty. -/
def firstDirectTextList : List Dom → String
  | [] => ""
  | n :: ns =>
    if jsTrim (textContent n) ≠ "" then jsTrim (textContent n)
    else firstDirectTextList ns

/-- Model of `firstDirectText(el)` (src/unnamed/part_000, lines 114-122). -/
def firstDirectText : Dom → String
  | .textNode _ => ""
  | .elem _ _ _ _ _ cs => firstDirectTextList cs

/-- Model of `getLabelByText(root, text)` (src/unnamed/part_000, lines
130-138): the first `label` descendant whose `firstDirectText` equals
`text`. -/
def getLabelByText (root : Dom) (text : String) : Option (DPath × Dom) :=
  ((descElems root).filter (fun pn => isLabel pn.2)).find?
    (fun pn => firstDirectText pn.2 == text)

/-- Model of the older revision's `setNationality(root, labelText, country)`
(src/unnamed/part_000, lines 253-273): resolve the label, require a trigger
button, click it, scan the label's buttons for the requested country, and on
a miss retry with `"- Others"` — with no guard comparing the request to the
fallback.  The recursive call repeats the same arguments (clicks have no
modelled effect on the static tree, as in the current revision's model), so
the function is not structurally recursive; the embedding is indexed by the
number of nested invocations it may still perform.  `some b` is a value the
call returns; `none` means no result was reached within `fuel` invocations,
so a result of `none` at every `fuel` means the call never returns. -/
def setNationalityFuel : Nat → Dom → String → OStr → Option Bool
  | 0, _, _, _ => none
  | fuel + 1, root, labelText, country =>
    match getLabelByText root labelText with
    | none => some false
    | some (_, label) =>
      match firstDescWith label isButton with
      | none => some false
      | some _ =>
        match ((descElems label).filter (fun pn => isButton pn.2)).find?
            (fun pn => country == some (firstDirectText pn.2)) with
        | some _ => some true
        | none => setNationalityFuel fuel root labelText (some "- Others")

/-- A Country/Region dropdown whose rendered option list contains neither
the requested country nor the `"- Others"` fallback. -/
def c1OldDoc : Dom :=
  .elem "div" "" "" "" false
    [.elem "label" "" "" "" false
      [.textNode "Country/Region",
       .elem "button" "" "" "" false [.textNode "France"]]]

theorem c1_step_atlantis (fuel : Nat) :
    setNationalityFuel (fuel + 1) c1OldDoc "Country/Region"
      (some "Atlantis") =
      setNationalityFuel fuel c1OldDoc "Country/Region" (some "- Others") :=
  rfl

theorem c1_step_others (fuel : Nat) :
    setNationalityFuel (fuel + 1) c1OldDoc "Country/Region"
      (some "- Others") =
      setNationalityFuel fuel c1OldDoc "Country/Region" (some "- Others") :=
  rfl

/-- The call reaches no result at any recursion depth: it never returns. -/
def neverReturns (root : Dom) (labelText : String) (country : OStr) : Prop :=
  ∀ fuel : Nat, setNationalityFuel fuel root labelText country = none

theorem c1_no_result (fuel : Nat) :
    setNationalityFuel fuel c1OldDoc "Country/Region" (some "Atlantis") =
      none ∧
    setNationalityFuel fuel c1OldDoc "Country/Region" (some "- Others") =
      none := by
  induction fuel with
  | zero => exact ⟨rfl, rfl⟩
  | succ n ih =>
    exact ⟨(c1_step_atlantis n).trans ih.2, (c1_step_others n).trans ih.2⟩

/-- C1, counterexample: the claim also covers the older revision's
`setNationality` (src/unnamed/part_000, lines 253-273), which on a missing
option retries with the `"- Others"` fallback without ever comparing the
request to the fallback.  On the concrete tree `c1OldDoc`, whose rendered
option list contains neither the requested country `"Atlantis"` nor
`"- Others"`, the call never returns — so it neither retries exactly once
nor terminates returning failure, refuting the claim for this cited
source. -/
theorem claimC1_counterexample :
    neverReturns c1OldDoc "Country/Region" (some "Atlantis") ∧
    neverReturns c1OldDoc "Country/Region" (some "- Others") :=
  ⟨fun fuel => (c1_no_result fuel).1, fun fuel => (c1_no_result fuel).2⟩
